import Mathlib

/-!
# Career-JAM persistence layer, shallow embedding

A shallow embedding of the IndexedDB-backed persistence and query layer of
`src/functions.js` (Career-JAM).  JavaScript field values are modelled by
`JSVal` (`null`, `undefined`/absent, numbers, strings); IndexedDB keys by
`IDBKey` (numbers sort before strings, each ordered internally).  Object
stores are lists of records plus the auto-increment key generator.  All
operations are translated from the source; engine-level I/O failures
(`StoreUnavailable`) are out of scope, so a promise that can only reject on
an engine error is modelled as always succeeding.
-/

/-- A JavaScript value as it appears in a stored record's field:
`null`, `undefined` (also used for an absent property), a number, or a
string.  Numbers are modelled by `Int` (the values the app stores are
integers or `parseFloat` results used only as sort keys). -/
inductive JSVal : Type
  | null : JSVal
  | undef : JSVal
  | num : Int → JSVal
  | str : String → JSVal
  deriving DecidableEq, Repr

/-- An IndexedDB key: a number or a string.  `null` and `undefined` are not
valid keys, so records holding them in an indexed field have no entry in
that index. -/
inductive IDBKey : Type
  | num : Int → IDBKey
  | str : String → IDBKey
  deriving DecidableEq, Repr

/-- Key extraction: the IndexedDB key corresponding to a field value, or
`none` when the value is not a valid key (`null`/`undefined`). -/
def keyOf : JSVal → Option IDBKey
  | JSVal.num n => some (IDBKey.num n)
  | JSVal.str s => some (IDBKey.str s)
  | _ => none

/-- Lexicographic order on character lists: the comparison JavaScript and
IndexedDB apply to string keys (code-unit by code-unit; the app only
stores ASCII sort keys, where scalar-value order and code-unit order
agree). -/
def charsLeb : List Char → List Char → Bool
  | [], _ => true
  | _ :: _, [] => false
  | a :: as, b :: bs => if a = b then charsLeb as bs else decide (a < b)

theorem charsLeb_refl (l : List Char) : charsLeb l l = true := by
  induction l with
  | nil => rfl
  | cons a as ih => simp [charsLeb, ih]

theorem charsLeb_total (l1 l2 : List Char) : charsLeb l1 l2 = true ∨ charsLeb l2 l1 = true := by
  induction l1 generalizing l2 with
  | nil => exact Or.inl rfl
  | cons a as ih =>
    cases l2 with
    | nil => exact Or.inr rfl
    | cons b bs =>
      by_cases hab : a = b
      · subst hab
        simpa [charsLeb] using ih bs
      · rcases lt_or_gt_of_ne hab with h | h
        · exact Or.inl (by simp [charsLeb, hab, h])
        · exact Or.inr (by simp [charsLeb, Ne.symm hab, h])

theorem charsLeb_trans {l1 l2 l3 : List Char} (h1 : charsLeb l1 l2 = true)
    (h2 : charsLeb l2 l3 = true) : charsLeb l1 l3 = true := by
  induction l1 generalizing l2 l3 with
  | nil => rfl
  | cons a as ih =>
    cases l2 with
    | nil => exact absurd h1 (by simp [charsLeb])
    | cons b bs =>
      cases l3 with
      | nil => exact absurd h2 (by simp [charsLeb])
      | cons c cs =>
        by_cases hab : a = b <;> by_cases hbc : b = c
        · subst hab; subst hbc
          simp only [charsLeb, if_pos rfl] at h1 h2 ⊢
          exact ih h1 h2
        · subst hab
          simp only [charsLeb, if_pos rfl, if_neg hbc] at h1 h2 ⊢
          exact h2
        · subst hbc
          simp only [charsLeb, if_pos rfl, if_neg hab] at h1 h2 ⊢
          exact h1
        · simp only [charsLeb, if_neg hab, if_neg hbc, decide_eq_true_eq] at h1 h2
          have hac : a < c := lt_trans h1 h2
          simp [charsLeb, ne_of_lt hac, hac]

theorem charsLeb_antisymm {l1 l2 : List Char} (h1 : charsLeb l1 l2 = true)
    (h2 : charsLeb l2 l1 = true) : l1 = l2 := by
  induction l1 generalizing l2 with
  | nil =>
    cases l2 with
    | nil => rfl
    | cons b bs => exact absurd h2 (by simp [charsLeb])
  | cons a as ih =>
    cases l2 with
    | nil => exact absurd h1 (by simp [charsLeb])
    | cons b bs =>
      by_cases hab : a = b
      · subst hab
        simp only [charsLeb, if_pos rfl] at h1 h2
        rw [ih h1 h2]
      · simp only [charsLeb, if_neg hab, if_neg (Ne.symm hab), decide_eq_true_eq] at h1 h2
        exact absurd h2 (not_lt_of_lt h1)

/-- IndexedDB key order: all numbers sort before all strings; numbers by
numeric value, strings lexicographically. -/
def IDBKey.leb : IDBKey → IDBKey → Bool
  | IDBKey.num a, IDBKey.num b => decide (a ≤ b)
  | IDBKey.num _, IDBKey.str _ => true
  | IDBKey.str _, IDBKey.num _ => false
  | IDBKey.str a, IDBKey.str b => charsLeb a.data b.data

theorem IDBKey.leb_total (a b : IDBKey) : a.leb b = true ∨ b.leb a = true := by
  cases a <;> cases b <;> simp only [IDBKey.leb, decide_eq_true_eq] <;>
    first
      | exact le_total _ _
      | exact charsLeb_total _ _
      | exact Or.inl trivial
      | exact Or.inr trivial

theorem IDBKey.leb_trans {a b c : IDBKey} (h1 : a.leb b = true) (h2 : b.leb c = true) :
    a.leb c = true := by
  cases a <;> cases b <;> cases c <;>
    simp only [IDBKey.leb, decide_eq_true_eq] at h1 h2 ⊢ <;>
    first
      | exact le_trans h1 h2
      | exact charsLeb_trans h1 h2
      | trivial
      | exact Bool.noConfusion h1
      | exact Bool.noConfusion h2

theorem IDBKey.leb_antisymm {a b : IDBKey} (h1 : a.leb b = true) (h2 : b.leb a = true) :
    a = b := by
  cases a <;> cases b <;>
    simp only [IDBKey.leb, decide_eq_true_eq, IDBKey.num.injEq, IDBKey.str.injEq] at h1 h2 ⊢ <;>
    first
      | exact le_antisymm h1 h2
      | exact String.ext (charsLeb_antisymm h1 h2)
      | exact Bool.noConfusion h1
      | exact Bool.noConfusion h2

theorem IDBKey.leb_refl (a : IDBKey) : a.leb a = true := by
  cases a <;> simp [IDBKey.leb, charsLeb_refl]

/-- An object store: its records together with the auto-increment key
generator (`nextId`).  `clear()` empties the records but, as in IndexedDB,
does not reset the generator. -/
structure Store (α : Type) where
  records : List α
  nextId : Int
  deriving Repr

/-- Bump the key generator after an explicit numeric key is written
(IndexedDB keeps the generator above every numeric key ever stored;
string keys do not affect it). -/
def bumpNext (next : Int) : IDBKey → Int
  | IDBKey.num m => max next (m + 1)
  | IDBKey.str _ => next

/-- `store.add(item)` for a store with `keyPath: 'id', autoIncrement: true`
and an optional unique secondary index described by `clash` (for the
`companies` store, a duplicated `name` key; `fun _ _ => false` otherwise).

* a valid explicit `id` key inserts (failing on a duplicate primary key or
  a unique-index violation) and bumps the generator;
* an absent/`undefined` `id` gets the generated key injected;
* a `null` `id` is an invalid key, so the request fails (`DataError`). -/
def addItem {α : Type} (getId : α → JSVal) (withNumId : α → Int → α)
    (clash : α → α → Bool) (s : Store α) (item : α) : Except String (Store α × IDBKey) :=
  match keyOf (getId item) with
  | some k =>
      if s.records.any (fun p => decide (keyOf (getId p) = some k)) then
        Except.error "ConstraintError: primary key already exists"
      else if s.records.any (fun p => clash p item) then
        Except.error "ConstraintError: unique index violation"
      else Except.ok ({ records := s.records ++ [item], nextId := bumpNext s.nextId k }, k)
  | none =>
      match getId item with
      | JSVal.undef =>
          if s.records.any (fun p => decide (keyOf (getId p) = some (IDBKey.num s.nextId))) then
            Except.error "ConstraintError: primary key already exists"
          else if s.records.any (fun p => clash p (withNumId item s.nextId)) then
            Except.error "ConstraintError: unique index violation"
          else Except.ok (Store.mk (s.records ++ [withNumId item s.nextId]) (s.nextId + 1),
            IDBKey.num s.nextId)
      | _ => Except.error "DataError: invalid key"

/-- `store.put(item)`: insert-or-replace by primary key.  Replaces every
record whose `id` key equals the item's (at most one under the store's
key-uniqueness invariant), appends when the key is new, auto-assigns when
the `id` is absent, and fails on a unique-index violation against a record
with a different primary key or on an invalid (`null`) `id`. -/
def putItem {α : Type} (getId : α → JSVal) (withNumId : α → Int → α)
    (clash : α → α → Bool) (s : Store α) (item : α) : Except String (Store α) :=
  match keyOf (getId item) with
  | some k =>
      if (s.records.filter (fun p => !(decide (keyOf (getId p) = some k)))).any
          (fun p => clash p item) then
        Except.error "ConstraintError: unique index violation"
      else if s.records.any (fun p => decide (keyOf (getId p) = some k)) then
        Except.ok ⟨s.records.map (fun p => if keyOf (getId p) = some k then item else p),
          bumpNext s.nextId k⟩
      else Except.ok ⟨s.records ++ [item], bumpNext s.nextId k⟩
  | none =>
      match getId item with
      | JSVal.undef =>
          if s.records.any (fun p => clash p (withNumId item s.nextId)) then
            Except.error "ConstraintError: unique index violation"
          else Except.ok (Store.mk (s.records ++ [withNumId item s.nextId]) (s.nextId + 1))
      | _ => Except.error "DataError: invalid key"

/-- `store.get(key)` for an integer key (every caller passes a
`parseInt`-produced number): the first record whose `id` key matches, or
`none` (`undefined` in JS). -/
def getStoreItem {α : Type} (getId : α → JSVal) (s : Store α) (k : Int) : Option α :=
  s.records.find? (fun p => decide (keyOf (getId p) = some (IDBKey.num k)))

/-- `store.delete(key)`: removes the records with that key; the request
succeeds whether or not such a record exists. -/
def deleteStoreItem {α : Type} (getId : α → JSVal) (s : Store α) (k : Int) : Store α :=
  { s with records := s.records.filter (fun p => !(decide (keyOf (getId p) = some (IDBKey.num k)))) }

/-! ## Entity records

The four record shapes from the export/import document (`initDB` stores):
every field is a `JSVal`, including `id` (absent before insertion,
a number once stored). -/

/-- A `companies` record. -/
structure Company : Type where
  id : JSVal
  name : JSVal
  industry : JSVal
  location : JSVal
  website : JSVal
  linkedin : JSVal
  notes : JSVal
  deriving DecidableEq, Repr

/-- A `profiles` record. -/
structure Profile : Type where
  id : JSVal
  name : JSVal
  content : JSVal
  notes : JSVal
  created_at : JSVal
  deriving DecidableEq, Repr

/-- A `people` record. -/
structure Person : Type where
  id : JSVal
  first_name : JSVal
  last_name : JSVal
  job_title : JSVal
  company_name : JSVal
  email : JSVal
  linkedin : JSVal
  notes : JSVal
  deriving DecidableEq, Repr

/-- A `jobs` record. -/
structure Job : Type where
  id : JSVal
  title : JSVal
  company_id : JSVal
  location : JSVal
  salary : JSVal
  url : JSVal
  description : JSVal
  status : JSVal
  created_at : JSVal
  notes : JSVal
  profile_id : JSVal
  match_percentage : JSVal
  match_justification : JSVal
  ai_keywords : JSVal
  deriving DecidableEq, Repr

/-- The whole database: the four object stores created by `initDB`. -/
structure DB : Type where
  companies : Store Company
  profiles : Store Profile
  people : Store Person
  jobs : Store Job
  deriving Repr

def Company.withNumId (c : Company) (n : Int) : Company := { c with id := JSVal.num n }
def Profile.withNumId (p : Profile) (n : Int) : Profile := { p with id := JSVal.num n }
def Person.withNumId (p : Person) (n : Int) : Person := { p with id := JSVal.num n }
def Job.withNumId (j : Job) (n : Int) : Job := { j with id := JSVal.num n }

/-- The `companies.name` unique index: two records clash when both `name`
values are valid keys and those keys are equal (records without a valid
`name` key have no entry in the index, so they never clash). -/
def companyNameClash (p c : Company) : Bool :=
  match keyOf p.name, keyOf c.name with
  | some a, some b => decide (a = b)
  | _, _ => false

def noClash {α : Type} : α → α → Bool := fun _ _ => false

/-! ## Repository layer (`src/functions.js` lines 60–288) -/

def addCompany (db : DB) (c : Company) : Except String (DB × IDBKey) :=
  (addItem Company.id Company.withNumId companyNameClash db.companies c).map
    (fun r => ({ db with companies := r.1 }, r.2))

def getCompany (db : DB) (k : Int) : Option Company :=
  getStoreItem Company.id db.companies k

/-- `getCompanyByName`: exact lookup through the unique `name` index. -/
def getCompanyByName (db : DB) (name : String) : Option Company :=
  db.companies.records.find? (fun c => decide (keyOf c.name = some (IDBKey.str name)))

def updateCompany (db : DB) (c : Company) : Except String DB :=
  (putItem Company.id Company.withNumId companyNameClash db.companies c).map
    (fun s => { db with companies := s })

/-- `deleteCompany`: deletes only the company record; the source comments
that related jobs will show "Unknown Company" unless updated.  The request
can only fail on an engine-level error, which is out of scope, so the
result is always `ok`. -/
def deleteCompany (db : DB) (k : Int) : Except String DB :=
  Except.ok { db with companies := deleteStoreItem Company.id db.companies k }

def addProfile (db : DB) (p : Profile) : Except String (DB × IDBKey) :=
  (addItem Profile.id Profile.withNumId noClash db.profiles p).map
    (fun r => ({ db with profiles := r.1 }, r.2))

def getProfile (db : DB) (k : Int) : Option Profile :=
  getStoreItem Profile.id db.profiles k

def updateProfile (db : DB) (p : Profile) : Except String DB :=
  (putItem Profile.id Profile.withNumId noClash db.profiles p).map
    (fun s => { db with profiles := s })

/-- `deleteProfile`: plain `deleteItem('profiles', id)` — the cascade
un-linking lives in the UI listener, not here. -/
def deleteProfile (db : DB) (k : Int) : Except String DB :=
  Except.ok { db with profiles := deleteStoreItem Profile.id db.profiles k }

def addPerson (db : DB) (p : Person) : Except String (DB × IDBKey) :=
  (addItem Person.id Person.withNumId noClash db.people p).map
    (fun r => ({ db with people := r.1 }, r.2))

def getPerson (db : DB) (k : Int) : Option Person :=
  getStoreItem Person.id db.people k

def updatePerson (db : DB) (p : Person) : Except String DB :=
  (putItem Person.id Person.withNumId noClash db.people p).map
    (fun s => { db with people := s })

def deletePerson (db : DB) (k : Int) : Except String DB :=
  Except.ok { db with people := deleteStoreItem Person.id db.people k }

/-- `updatePersonNotes(id, notes)`: fetch, patch `notes`, `put`; when the
record is missing the function resolves without touching anything. -/
def updatePersonNotes (db : DB) (k : Int) (notes : JSVal) : Except String DB :=
  match getStoreItem Person.id db.people k with
  | some person => updatePerson db { person with notes := notes }
  | none => Except.ok db

def addJob (db : DB) (j : Job) : Except String (DB × IDBKey) :=
  (addItem Job.id Job.withNumId noClash db.jobs j).map
    (fun r => ({ db with jobs := r.1 }, r.2))

def getJob (db : DB) (k : Int) : Option Job :=
  getStoreItem Job.id db.jobs k

def updateJob (db : DB) (j : Job) : Except String DB :=
  (putItem Job.id Job.withNumId noClash db.jobs j).map
    (fun s => { db with jobs := s })

def deleteJob (db : DB) (k : Int) : Except String DB :=
  Except.ok { db with jobs := deleteStoreItem Job.id db.jobs k }

/-- `updateJobNotes(id, notes)`: fetch, patch `notes`, `put`; when the
record is missing the function resolves without touching anything. -/
def updateJobNotes (db : DB) (k : Int) (notes : JSVal) : Except String DB :=
  match getStoreItem Job.id db.jobs k with
  | some job => updateJob db { job with notes := notes }
  | none => Except.ok db

/-- `getJobCount(status)`: `index('status').count(status)` — the number of
entries of the `status` index whose key equals the given string. -/
def getJobCount (db : DB) (status : String) : Nat :=
  (db.jobs.records.filter (fun j => decide (keyOf j.status = some (IDBKey.str status)))).length

/-- `getJobsByCompanyId`: `index('company_id').getAll(companyId)` — the jobs
whose `company_id` key equals the given number. -/
def getJobsByCompanyId (db : DB) (companyId : Int) : List Job :=
  db.jobs.records.filter (fun j => decide (keyOf j.company_id = some (IDBKey.num companyId)))

/-- `getJobsByProfileId`: `index('profile_id').getAll(profileId)` — the jobs
whose `profile_id` key equals the given number. -/
def getJobsByProfileId (db : DB) (profileId : Int) : List Job :=
  db.jobs.records.filter (fun j => decide (keyOf j.profile_id = some (IDBKey.num profileId)))

/-! ## Backup & restore (`exportDB` / `importDB`, `src/functions.js` 345–396)

`exportDB` serializes the four stores to a JSON string and `importDB`
parses one back.  The JSON text itself carries no structure beyond the
document (`JSON.parse (JSON.stringify d) = d` for these records, with an
absent property and an explicitly-`undefined` property identified, as in
`JSVal.undef`), so the codec is modelled at the document level. -/

/-- The export/import document: the four top-level arrays. -/
structure ExportDoc : Type where
  companies : List Company
  profiles : List Profile
  people : List Person
  jobs : List Job
  deriving DecidableEq, Repr

/-- Comparator used by `getAll`: records come back in primary-key order. -/
def idLeb {α : Type} (getId : α → JSVal) (a b : α) : Bool :=
  IDBKey.leb ((keyOf (getId a)).getD (IDBKey.num 0)) ((keyOf (getId b)).getD (IDBKey.num 0))

/-- `store.getAll()`: every record, ordered by primary key. -/
def getAllStore {α : Type} (getId : α → JSVal) (s : Store α) : List α :=
  List.insertionSort (fun a b => idLeb getId a b = true) s.records

def getAllCompanies (db : DB) : List Company := getAllStore Company.id db.companies
def getAllProfiles (db : DB) : List Profile := getAllStore Profile.id db.profiles
def getAllPeople (db : DB) : List Person := getAllStore Person.id db.people
def getAllJobs (db : DB) : List Job := getAllStore Job.id db.jobs

/-- `exportDB`: `getAll` of each of the four stores, in the source's order. -/
def exportDB (db : DB) : ExportDoc :=
  { companies := getAllCompanies db
    profiles := getAllProfiles db
    people := getAllPeople db
    jobs := getAllJobs db }

/-- One `importDB` insertion: `delete item.id` when the id is `null` or
`undefined` (so the store auto-assigns), then `add`.  The `onerror`
handler logs the failure and resolves, but it never calls
`event.preventDefault()`, so the uncanceled error event aborts the
enclosing readwrite transaction: a failed `add` terminates the import
rather than being skipped, which the model renders by propagating the
error. -/
def importStep {α : Type} (getId : α → JSVal) (withNumId : α → Int → α)
    (delId : α → α) (clash : α → α → Bool) (s : Store α) (item : α) :
    Except String (Store α) :=
  let item' := if getId item = JSVal.null ∨ getId item = JSVal.undef then delId item else item
  (addItem getId withNumId clash s item').map (fun r => r.1)

/-- `importDB`'s per-store loop: the records of one document array, added
in order after the store was cleared; the first failed `add` aborts the
whole loop. -/
def importStoreFold {α : Type} (getId : α → JSVal) (withNumId : α → Int → α)
    (delId : α → α) (clash : α → α → Bool) (s : Store α) (items : List α) :
    Except String (Store α) :=
  items.foldlM (importStep getId withNumId delId clash) s

def Company.delId (c : Company) : Company := { c with id := JSVal.undef }
def Profile.delId (p : Profile) : Profile := { p with id := JSVal.undef }
def Person.delId (p : Person) : Person := { p with id := JSVal.undef }
def Job.delId (j : Job) : Job := { j with id := JSVal.undef }

/-- `importDB(jsonString)`: all four stores (companies, profiles, people,
jobs, in that order) are cleared — emptying the records but keeping the
key generator — and repopulated from the document inside one readwrite
transaction.  Because a failed `add`'s error event is never canceled, the
first failure aborts that transaction; IndexedDB then rolls back every
clear and add already performed, so the database is left exactly as it
was and the restore rejects.  `Except.error` models the aborted,
rolled-back run (the caller's store state stays the input `db`);
`Except.ok` the fully successful restore. -/
def importDB (db : DB) (doc : ExportDoc) : Except String DB := do
  let cs ← importStoreFold Company.id Company.withNumId Company.delId companyNameClash
      ⟨[], db.companies.nextId⟩ doc.companies
  let ps ← importStoreFold Profile.id Profile.withNumId Profile.delId noClash
      ⟨[], db.profiles.nextId⟩ doc.profiles
  let es ← importStoreFold Person.id Person.withNumId Person.delId noClash
      ⟨[], db.people.nextId⟩ doc.people
  let js ← importStoreFold Job.id Job.withNumId Job.delId noClash
      ⟨[], db.jobs.nextId⟩ doc.jobs
  return DB.mk cs ps es js

/-! ## Query engine: `getPaginatedJobs` (`src/functions.js` 291–338) -/

/-- The secondary indexes created on the `jobs` store by `initDB`. -/
def jobIndexNames : List String :=
  ["status", "company_id", "profile_id", "created_at", "salary", "match_percentage", "title"]

/-- The field a `jobs` index name refers to (only used at valid names). -/
def jobIndexField (f : String) (j : Job) : JSVal :=
  if f = "status" then j.status
  else if f = "company_id" then j.company_id
  else if f = "profile_id" then j.profile_id
  else if f = "created_at" then j.created_at
  else if f = "salary" then j.salary
  else if f = "match_percentage" then j.match_percentage
  else if f = "title" then j.title
  else JSVal.undef

/-- Sort-field key of a job, defaulting (for jobs outside the index, which
the cursor never visits) to an arbitrary key. -/
def jobKeyD (f : String) (j : Job) : IDBKey :=
  (keyOf (jobIndexField f j)).getD (IDBKey.num 0)

/-- Primary key of a stored job, with the same default. -/
def jobPrimD (j : Job) : IDBKey :=
  (keyOf j.id).getD (IDBKey.num 0)

/-- Index order of the `jobs` index on `f`: by field key, ties broken by
primary key — exactly the order an `openCursor(null, 'next')` visit
follows. -/
def jobIdxLeb (f : String) (a b : Job) : Bool :=
  if jobKeyD f a = jobKeyD f b then IDBKey.leb (jobPrimD a) (jobPrimD b)
  else IDBKey.leb (jobKeyD f a) (jobKeyD f b)

instance jobIdxRelTotal (f : String) : IsTotal Job (fun a b => jobIdxLeb f a b = true) := by
  constructor
  intro a b
  unfold jobIdxLeb
  by_cases h : jobKeyD f a = jobKeyD f b
  · simp [h]
    exact IDBKey.leb_total _ _
  · have h' : jobKeyD f b ≠ jobKeyD f a := fun e => h e.symm
    simp [h, h']
    exact IDBKey.leb_total _ _

instance jobIdxRelTrans (f : String) : IsTrans Job (fun a b => jobIdxLeb f a b = true) := by
  constructor
  intro a b c hab hbc
  unfold jobIdxLeb at *
  by_cases h1 : jobKeyD f a = jobKeyD f b <;> by_cases h2 : jobKeyD f b = jobKeyD f c
  · simp_all
    exact IDBKey.leb_trans hab hbc
  · simp_all
  · simp_all
  · simp only [h1, h2, if_neg, if_false] at hab hbc
    have h3 : jobKeyD f a ≠ jobKeyD f c := by
      intro e
      exact h1 (IDBKey.leb_antisymm hab (e ▸ hbc))
    simp only [h3, if_neg, if_false]
    exact IDBKey.leb_trans hab hbc

/-- The entries of the `jobs` index on `f`, in cursor (`'next'`) order:
jobs whose `f` value is a valid key — jobs with `null`/absent `f` have no
index entry — sorted by (field key, primary key). -/
def jobsIndexEntries (f : String) (jobs : List Job) : List Job :=
  List.insertionSort (fun a b => jobIdxLeb f a b = true)
    (jobs.filter (fun j => (keyOf (jobIndexField f j)).isSome))

/-- The cursor check `cursor.value.status !== status` (against the string
argument): a match is a `status` field strictly equal to that string. -/
def jobMatchesStatus (status : String) (j : Job) : Bool :=
  decide (j.status = JSVal.str status)

/-- The `onsuccess` cursor loop of `getPaginatedJobs`: on each visited
record, first the status post-filter (only when the sort index is not
`status`), then the skip counter for `(page-1)*itemsPerPage` matching
records, then collection until `itemsPerPage` results are gathered. -/
def scanJobs (needFilter : Bool) (status : String) :
    Nat → Nat → List Job → List Job
  | _, _, [] => []
  | skip, size, j :: rest =>
    if needFilter && !(jobMatchesStatus status j) then
      scanJobs needFilter status skip size rest
    else
      match skip with
      | Nat.succ k => scanJobs needFilter status k size rest
      | 0 =>
        match size with
        | Nat.succ m => j :: scanJobs needFilter status 0 m rest
        | 0 => []

/-- `split(' ')` on the character list: the JS `String.prototype.split`
with a single-space separator (`"a b"` gives `["a","b"]`, an empty string
gives `[""]`, adjacent separators give empty fragments). -/
def splitSpaceAux : List Char → List Char → List String
  | [], acc => [String.mk acc.reverse]
  | c :: cs, acc =>
    if c = ' ' then String.mk acc.reverse :: splitSpaceAux cs []
    else splitSpaceAux cs (c :: acc)

/-- `sortBy.split(' ')`. -/
def splitSpace (sortBy : String) : List String :=
  splitSpaceAux sortBy.data []

/-- `sortBy.split(' ')[0]`, with the `company_name → company_id` mapping
(sorting "by company name" actually sorts by the numeric foreign key). -/
def effSortKey (sortBy : String) : String :=
  let sortKey := (splitSpace sortBy).headD ""
  if sortKey = "company_name" then "company_id" else sortKey

/-- `sortBy.split(' ')[1]`: the direction token (`"DESC"` selects the
`'prev'` cursor). -/
def sortDir (sortBy : String) : String :=
  ((splitSpace sortBy).drop 1).headD ""

/-- `getPaginatedJobs(status, sortBy, page, itemsPerPage)`.

The cursor runs over the index named by the sort key (`NotFoundError`
when no such index exists).  When that index is `status` the cursor is
bounded by `IDBKeyRange.only(status)` and no post-filter is applied;
otherwise the whole index is walked and non-matching records are skipped.
`'prev'` visits the same entries in reverse. -/
def getPaginatedJobs (jobs : List Job) (status : String) (sortBy : String)
    (page itemsPerPage : Nat) : Except String (List Job) :=
  let eff := effSortKey sortBy
  if eff ∈ jobIndexNames then
    let entries := jobsIndexEntries eff jobs
    let ranged := if eff = "status" then entries.filter (jobMatchesStatus status) else entries
    let visited := if sortDir sortBy = "DESC" then ranged.reverse else ranged
    Except.ok (scanJobs (!(eff = "status" : Bool)) status
      ((page - 1) * itemsPerPage) itemsPerPage visited)
  else Except.error "NotFoundError"

/-! ## UI-level composites over the repository layer -/

/-- The unlink a profile delete applies to a dependent job
(`profiles-table-body` click listener, `src/functions.js` 4977–5003). -/
def unlinkJob (j : Job) : Job :=
  { j with profile_id := JSVal.null, match_percentage := JSVal.null,
           match_justification := JSVal.null }

/-- The `updateJob` calls of the cascade, in the order `getAll` returned
the linked jobs. -/
def unlinkJobsFold (db : DB) (jobsToUpdate : List Job) : Except String DB :=
  jobsToUpdate.foldlM (fun d job => updateJob d (unlinkJob job)) db

/-- Cascade profile delete (`profiles-table-body` click listener):
`getJobsByProfileId`, null out `profile_id`, `match_percentage`,
`match_justification` on each and `updateJob` it, then `deleteProfile`. -/
def deleteProfileCascade (db : DB) (profileId : Int) : Except String DB := do
  let jobsToUpdate := getJobsByProfileId db profileId
  let db1 ← unlinkJobsFold db jobsToUpdate
  deleteProfile db1 profileId

/-- `handleDeleteConfirmed`, `case 'profile'` (`src/functions.js`
2151–2156): the confirm-modal path calls plain `deleteProfile(id)` —
no unlinking of dependent jobs. -/
def handleDeleteConfirmedProfile (db : DB) (profileId : Int) : Except String DB :=
  deleteProfile db profileId

/-- The eight allowed job statuses (`JOB_STATUSES`). -/
def JOB_STATUSES : List String :=
  ["Bookmarked", "Applying", "Applied", "Interviewing", "Negotiating", "Accepted",
   "Spam", "Rejected"]

/-- The ADD branch of the `add-job-form` submit listener: the form-built
record gets `created_at` stamped, `status` forced to `'Bookmarked'`, and
the AI/profile fields nulled before `addJob`. -/
def handleAddJobNew (db : DB) (formJob : Job) (now : String) : Except String (DB × IDBKey) :=
  addJob db { formJob with
    created_at := JSVal.str now
    status := JSVal.str "Bookmarked"
    match_percentage := JSVal.null
    profile_id := JSVal.null
    match_justification := JSVal.null
    ai_keywords := JSVal.null }

/-- The UPDATE branch of the same listener: the form-built record takes
`status`, `created_at`, `profile_id`, `match_percentage`,
`match_justification`, `ai_keywords` from the fetched original before
`updateJob`. -/
def handleEditJobSave (db : DB) (formJob originalJob : Job) : Except String DB :=
  updateJob db { formJob with
    status := originalJob.status
    created_at := originalJob.created_at
    profile_id := originalJob.profile_id
    match_percentage := originalJob.match_percentage
    match_justification := originalJob.match_justification
    ai_keywords := originalJob.ai_keywords }

/-- Status editing (`makeStatusEditable` save handler and the kanban
drag-drop handler share this shape): fetch the job, overwrite `status`
with the chosen value, `updateJob`; a missing job resolves unchanged. -/
def setJobStatus (db : DB) (jobId : Int) (newStatus : String) : Except String DB :=
  match getJob db jobId with
  | some job => updateJob db { job with status := JSVal.str newStatus }
  | none => Except.ok db

/-! ## Helper lemmas -/

theorem scanJobs_filter_eq (status : String) :
    ∀ (l : List Job) (skip size : Nat),
      scanJobs true status skip size l =
        ((l.filter (jobMatchesStatus status)).drop skip).take size := by
  intro l
  induction l with
  | nil => intro skip size; simp [scanJobs]
  | cons j rest ih =>
    intro skip size
    by_cases hm : jobMatchesStatus status j
    · cases skip with
      | zero =>
        cases size with
        | zero => simp [scanJobs, hm]
        | succ m => simp [scanJobs, hm, ih]
      | succ k => simp [scanJobs, hm, ih]
    · simp [scanJobs, hm, ih]

theorem scanJobs_nofilter_eq (status : String) :
    ∀ (l : List Job) (skip size : Nat),
      scanJobs false status skip size l = (l.drop skip).take size := by
  intro l
  induction l with
  | nil => intro skip size; simp [scanJobs]
  | cons j rest ih =>
    intro skip size
    cases skip with
    | zero =>
      cases size with
      | zero => simp [scanJobs]
      | succ m => simp [scanJobs, ih]
    | succ k => simp [scanJobs, ih]

/-- The full matching sequence a pagination run walks: the status-matching
entries of the sort index, reversed for a `DESC` direction.  Every page is
a contiguous segment of this list. -/
def matchingSeq (jobs : List Job) (status sortBy : String) : List Job :=
  let m := (jobsIndexEntries (effSortKey sortBy) jobs).filter (jobMatchesStatus status)
  if sortDir sortBy = "DESC" then m.reverse else m

theorem getPaginatedJobs_eq_segment (jobs : List Job) (status sortBy : String)
    (page itemsPerPage : Nat) (hidx : effSortKey sortBy ∈ jobIndexNames) :
    getPaginatedJobs jobs status sortBy page itemsPerPage =
      Except.ok (((matchingSeq jobs status sortBy).drop ((page - 1) * itemsPerPage)).take
        itemsPerPage) := by
  unfold getPaginatedJobs matchingSeq
  rw [if_pos hidx]
  by_cases hs : effSortKey sortBy = "status"
  · by_cases hd : sortDir sortBy = "DESC" <;>
      simp [hs, hd, scanJobs_nofilter_eq]
  · by_cases hd : sortDir sortBy = "DESC" <;>
      simp [hs, hd, scanJobs_filter_eq, List.filter_reverse]

/-- Concatenating `n` consecutive `P`-sized chunks recovers a list of
length at most `n * P`. -/
theorem join_chunks_eq {α : Type} :
    ∀ (n : Nat) (l : List α) (P : Nat), l.length ≤ n * P →
      ((List.range n).map (fun i => (l.drop (i * P)).take P)).flatten = l := by
  intro n
  induction n with
  | zero => intro l P h; simp at h; simp [h]
  | succ m ih =>
    intro l P h
    rw [List.range_succ_eq_map]
    simp only [List.map_cons, List.flatten_cons, List.map_map]
    have hcomp : ((fun i => (l.drop (i * P)).take P) ∘ Nat.succ) =
        (fun i => ((l.drop P).drop (i * P)).take P) := by
      funext i
      simp only [Function.comp]
      rw [List.drop_drop]
      congr 2
      have e : Nat.succ i * P = i * P + P := Nat.succ_mul i P
      omega
    rw [hcomp]
    have e : (m + 1) * P = m * P + P := Nat.succ_mul m P
    rw [ih (l.drop P) P (by simp; omega)]
    simp

/-- When every status-matching job carries a valid key on the effective
sort field, the matching sequence is a permutation of the matching jobs. -/
theorem matchingSeq_perm (jobs : List Job) (status sortBy : String)
    (hkeys : ∀ j ∈ jobs, j.status = JSVal.str status →
      (keyOf (jobIndexField (effSortKey sortBy) j)).isSome) :
    (matchingSeq jobs status sortBy).Perm (jobs.filter (jobMatchesStatus status)) := by
  unfold matchingSeq jobsIndexEntries
  have hperm : (List.insertionSort (fun a b => jobIdxLeb (effSortKey sortBy) a b = true)
      (jobs.filter (fun j => (keyOf (jobIndexField (effSortKey sortBy) j)).isSome))).Perm
      (jobs.filter (fun j => (keyOf (jobIndexField (effSortKey sortBy) j)).isSome)) :=
    List.perm_insertionSort _ _
  have h2 := hperm.filter (jobMatchesStatus status)
  rw [List.filter_filter] at h2
  have h3 : jobs.filter
      (fun a => jobMatchesStatus status a && (keyOf (jobIndexField (effSortKey sortBy) a)).isSome)
      = jobs.filter (jobMatchesStatus status) := by
    apply List.filter_congr
    intro x hx
    by_cases hm : jobMatchesStatus status x
    · have : (keyOf (jobIndexField (effSortKey sortBy) x)).isSome := by
        apply hkeys x hx
        simpa [jobMatchesStatus] using hm
      simp [hm, this]
    · simp [hm]
  rw [h3] at h2
  by_cases hd : sortDir sortBy = "DESC"
  · simp only [hd, if_pos]
    exact (List.reverse_perm _).trans h2
  · simp only [hd, if_neg, ite_false]
    exact h2

/-- `ceil(N / P)` on naturals. -/
def ceilPages (N P : Nat) : Nat := (N + P - 1) / P

theorem le_ceilPages_mul (N P : Nat) (hP : 1 ≤ P) : N ≤ ceilPages N P * P := by
  unfold ceilPages
  cases N with
  | zero => simp
  | succ n =>
    have h1 : (n + 1 + P - 1) = n + P := by omega
    rw [h1]
    have h2 : (n + P) / P = n / P + 1 := by
      have := Nat.add_div_right n hP
      omega
    rw [h2]
    have h3 := Nat.div_add_mod n P
    have h4 := Nat.mod_lt n (show 0 < P by omega)
    have e : (n / P + 1) * P = n / P * P + P := by ring
    have e2 : n / P * P = P * (n / P) := Nat.mul_comm _ _
    omega

/-- The page a caller sees: the resolved list, or `[]` for a rejected
promise (used only to state concatenation-of-pages properties). -/
def pageOrNil (r : Except String (List Job)) : List Job :=
  match r with
  | Except.ok l => l
  | Except.error _ => []

/-- The concatenation of `getPaginatedJobs` over pages `1..n`. -/
def pagesJoin (jobs : List Job) (status sortBy : String) (P n : Nat) : List Job :=
  ((List.range n).map
    (fun i => pageOrNil (getPaginatedJobs jobs status sortBy (i + 1) P))).flatten

/-! ## Claim theorems -/

/-- C1 (amended).  For every status `S`, sort spec and page size `P ≥ 1`,
**provided every job with status `S` has a valid (non-`null`, non-absent)
value on the effective sort field** — automatic when sorting by `status` —
the concatenation of `getPaginatedJobs(S, sort, page, P)` over
`page = 1 .. ceil(N/P)` is a permutation of the `N` status-`S` jobs:
no duplicates, no omissions, for either direction.  (Without the proviso
the claim fails: see the counterexample.) -/
theorem getPaginatedJobs_pages_complete (jobs : List Job) (status sortBy : String) (P : Nat)
    (hP : 1 ≤ P) (hidx : effSortKey sortBy ∈ jobIndexNames)
    (hkeys : ∀ j ∈ jobs, j.status = JSVal.str status →
      (keyOf (jobIndexField (effSortKey sortBy) j)).isSome) :
    (pagesJoin jobs status sortBy P
      (ceilPages (jobs.filter (jobMatchesStatus status)).length P)).Perm
      (jobs.filter (jobMatchesStatus status)) := by
  have hm := matchingSeq_perm jobs status sortBy hkeys
  have hlen : (matchingSeq jobs status sortBy).length =
      (jobs.filter (jobMatchesStatus status)).length := hm.length_eq
  have hpage : ∀ i : Nat, pageOrNil (getPaginatedJobs jobs status sortBy (i + 1) P) =
      ((matchingSeq jobs status sortBy).drop (i * P)).take P := by
    intro i
    rw [getPaginatedJobs_eq_segment jobs status sortBy (i + 1) P hidx]
    simp [pageOrNil]
  have hjoin : pagesJoin jobs status sortBy P
      (ceilPages (jobs.filter (jobMatchesStatus status)).length P) =
      matchingSeq jobs status sortBy := by
    unfold pagesJoin
    rw [List.map_congr_left (fun i _ => hpage i)]
    apply join_chunks_eq
    rw [hlen]
    exact le_ceilPages_mul _ _ hP
  rw [hjoin]
  exact hm

/-- A job record with every optional field empty, used to build concrete
test fixtures. -/
def baseJob : Job :=
  { id := JSVal.undef, title := JSVal.str "Engineer", company_id := JSVal.num 1,
    location := JSVal.undef, salary := JSVal.null, url := JSVal.undef,
    description := JSVal.undef, status := JSVal.str "Bookmarked",
    created_at := JSVal.str "2024-01-01T00:00:00.000Z", notes := JSVal.undef,
    profile_id := JSVal.null, match_percentage := JSVal.null,
    match_justification := JSVal.null, ai_keywords := JSVal.null }

/-- Witness for C1: three `Bookmarked` jobs with distinct salaries,
paginated by salary descending two at a time. -/
theorem getPaginatedJobs_pages_complete_witness :
    (pagesJoin
      [{ baseJob with id := JSVal.num 1, salary := JSVal.num 50 },
       { baseJob with id := JSVal.num 2, salary := JSVal.num 70 },
       { baseJob with id := JSVal.num 3, salary := JSVal.num 60 }]
      "Bookmarked" "salary DESC" 2
      (ceilPages
        (List.length (List.filter (jobMatchesStatus "Bookmarked")
          [{ baseJob with id := JSVal.num 1, salary := JSVal.num 50 },
           { baseJob with id := JSVal.num 2, salary := JSVal.num 70 },
           { baseJob with id := JSVal.num 3, salary := JSVal.num 60 }])) 2)).Perm
      (List.filter (jobMatchesStatus "Bookmarked")
        [{ baseJob with id := JSVal.num 1, salary := JSVal.num 50 },
         { baseJob with id := JSVal.num 2, salary := JSVal.num 70 },
         { baseJob with id := JSVal.num 3, salary := JSVal.num 60 }]) :=
  getPaginatedJobs_pages_complete _ _ _ _ (by decide) (by decide) (by decide)

/-- Counterexample to C1 as stated: a single `Bookmarked` job whose
`salary` is `null` is absent from the `salary` index, so with sort
`salary ASC` and `P = 1` the one expected page is empty while `N = 1` —
the concatenation of pages `1..ceil(N/P)` omits the job. -/
theorem getPaginatedJobs_pages_complete_cex :
    (List.filter (jobMatchesStatus "Bookmarked") [baseJob]).length = 1 ∧
    getPaginatedJobs [baseJob] "Bookmarked" "salary ASC" 1 1 = Except.ok [] ∧
    pagesJoin [baseJob] "Bookmarked" "salary ASC" 1
      (ceilPages (List.filter (jobMatchesStatus "Bookmarked") [baseJob]).length 1) = [] :=
  ⟨by decide, rfl, rfl⟩

theorem jobIdxLeb_key_le {f : String} {a b : Job} (h : jobIdxLeb f a b = true) :
    (jobKeyD f a).leb (jobKeyD f b) = true := by
  unfold jobIdxLeb at h
  by_cases he : jobKeyD f a = jobKeyD f b
  · rw [he]; exact IDBKey.leb_refl _
  · rwa [if_neg he] at h

/-- Entries of `matchingSeq` all carry a valid key on the effective sort
field. -/
theorem mem_matchingSeq_key_isSome {jobs : List Job} {status sortBy : String} {j : Job}
    (h : j ∈ matchingSeq jobs status sortBy) :
    (keyOf (jobIndexField (effSortKey sortBy) j)).isSome := by
  unfold matchingSeq at h
  have hidx : j ∈ jobsIndexEntries (effSortKey sortBy) jobs := by
    by_cases hd : sortDir sortBy = "DESC"
    · rw [if_pos hd, List.mem_reverse] at h
      exact List.mem_of_mem_filter h
    · rw [if_neg hd] at h
      exact List.mem_of_mem_filter h
  unfold jobsIndexEntries at hidx
  rw [List.mem_insertionSort] at hidx
  exact (List.mem_filter.mp hidx).2

/-- For a `DESC` direction, `matchingSeq` is pairwise non-increasing on the
effective sort-field key. -/
theorem matchingSeq_pairwise_desc (jobs : List Job) (status sortBy : String)
    (hd : sortDir sortBy = "DESC") :
    (matchingSeq jobs status sortBy).Pairwise
      (fun a b => (jobKeyD (effSortKey sortBy) b).leb (jobKeyD (effSortKey sortBy) a) = true) := by
  unfold matchingSeq
  rw [if_pos hd, List.pairwise_reverse]
  apply List.Pairwise.filter
  have hs := List.sorted_insertionSort (fun a b => jobIdxLeb (effSortKey sortBy) a b = true)
    (jobs.filter (fun j => (keyOf (jobIndexField (effSortKey sortBy) j)).isSome))
  unfold jobsIndexEntries
  exact List.Pairwise.imp (fun h => jobIdxLeb_key_le h) hs

/-- In a pairwise-related list, the last element of the segment
`[a, a+P)` is related to the first element of the segment `[a+P, a+2P)`
whenever both are nonempty. -/
theorem pairwise_segment_boundary {α : Type} {R : α → α → Prop} {l : List α}
    (h : l.Pairwise R) (a P : Nat)
    (hne1 : ((l.drop a).take P) ≠ []) (hne2 : ((l.drop (a + P)).take P) ≠ []) :
    R (((l.drop a).take P).getLast hne1) (((l.drop (a + P)).take P).head hne2) := by
  have hP : 0 < P := by
    rcases Nat.eq_zero_or_pos P with h0 | h0
    · exact absurd (by simp [h0]) hne2
    · exact h0
  have hlen : a + P < l.length := by
    by_contra hbig
    apply hne2
    have hd : l.drop (a + P) = [] := List.drop_eq_nil_iff.mpr (by omega)
    simp [hd]
  have hlen1 : ((l.drop a).take P).length = P := by
    simp only [List.length_take, List.length_drop]
    omega
  rw [List.pairwise_iff_get] at h
  have hord := h ⟨a + (((l.drop a).take P).length - 1), by omega⟩ ⟨a + P, by omega⟩
    (by rw [Fin.mk_lt_mk]; omega)
  have hlast : ((l.drop a).take P).getLast hne1 =
      l.get ⟨a + (((l.drop a).take P).length - 1), by omega⟩ := by
    rw [List.getLast_eq_getElem]
    simp [List.getElem_take, List.getElem_drop]
  have hhead : ((l.drop (a + P)).take P).head hne2 = l.get ⟨a + P, by omega⟩ := by
    rw [List.head_eq_getElem]
    simp [List.getElem_take, List.getElem_drop]
  rw [hlast, hhead]
  exact hord

/-- C7.  For sort `created_at DESC`, any status and any page size, across
the boundary of consecutive (1-based) pages the listing stays
non-increasing by `created_at`: the `created_at` key of the first item of
page `k+1` is `≤` (in IndexedDB key order) the `created_at` key of the
last item of page `k`. -/
theorem getPaginatedJobs_desc_boundary (jobs : List Job) (status : String)
    (P k : Nat) (hk : 1 ≤ k) (pk pk1 : List Job)
    (h1 : getPaginatedJobs jobs status "created_at DESC" k P = Except.ok pk)
    (h2 : getPaginatedJobs jobs status "created_at DESC" (k + 1) P = Except.ok pk1)
    (hne1 : pk ≠ []) (hne2 : pk1 ≠ []) :
    ∃ kLast kFirst, keyOf (pk.getLast hne1).created_at = some kLast ∧
      keyOf (pk1.head hne2).created_at = some kFirst ∧
      IDBKey.leb kFirst kLast = true := by
  have hidx : effSortKey "created_at DESC" ∈ jobIndexNames := by decide
  have hdir : sortDir "created_at DESC" = "DESC" := by decide
  rw [getPaginatedJobs_eq_segment jobs status _ k P hidx] at h1
  rw [getPaginatedJobs_eq_segment jobs status _ (k + 1) P hidx] at h2
  have e1 : pk = ((matchingSeq jobs status "created_at DESC").drop ((k - 1) * P)).take P := by
    injection h1 with e
    exact e.symm
  have ek : (k + 1 - 1) * P = (k - 1) * P + P := by
    have e : k = (k - 1) + 1 := (Nat.succ_pred_eq_of_pos hk).symm
    calc (k + 1 - 1) * P = k * P := by simp
    _ = ((k - 1) + 1) * P := by rw [← e]
    _ = (k - 1) * P + P := by ring
  have e2 : pk1 =
      ((matchingSeq jobs status "created_at DESC").drop ((k - 1) * P + P)).take P := by
    injection h2 with e
    rw [← e, ek]
  have hpair := matchingSeq_pairwise_desc jobs status "created_at DESC" hdir
  -- move the goal onto the segment expressions
  subst e1
  subst e2
  have hbd := pairwise_segment_boundary hpair ((k - 1) * P) P hne1 hne2
  have hmem1 : (((matchingSeq jobs status "created_at DESC").drop ((k - 1) * P)).take
      P).getLast hne1 ∈ matchingSeq jobs status "created_at DESC" :=
    ((List.take_sublist _ _).trans (List.drop_sublist _ _)).subset (List.getLast_mem hne1)
  have hmem2 : (((matchingSeq jobs status "created_at DESC").drop ((k - 1) * P + P)).take
      P).head hne2 ∈ matchingSeq jobs status "created_at DESC" :=
    ((List.take_sublist _ _).trans (List.drop_sublist _ _)).subset (List.head_mem hne2)
  have hs1 := mem_matchingSeq_key_isSome hmem1
  have hs2 := mem_matchingSeq_key_isSome hmem2
  obtain ⟨k1, hk1⟩ := Option.isSome_iff_exists.mp hs1
  obtain ⟨k2, hk2⟩ := Option.isSome_iff_exists.mp hs2
  have hf : ∀ j : Job, jobIndexField (effSortKey "created_at DESC") j = j.created_at := by
    intro j; rfl
  refine ⟨k1, k2, ?_, ?_, ?_⟩
  · rw [← hf]; exact hk1
  · rw [← hf]; exact hk2
  · have hkey1 : jobKeyD (effSortKey "created_at DESC")
        (((matchingSeq jobs status "created_at DESC").drop ((k - 1) * P)).take P
          |>.getLast hne1) = k1 := by
      unfold jobKeyD; rw [hk1]; rfl
    have hkey2 : jobKeyD (effSortKey "created_at DESC")
        ((((matchingSeq jobs status "created_at DESC").drop ((k - 1) * P + P)).take
          P).head hne2) = k2 := by
      unfold jobKeyD; rw [hk2]; rfl
    have := hbd
    rw [hkey1, hkey2] at this
    exact this

/-- Witness for C7: three `Bookmarked` jobs over two `created_at DESC`
pages of size 2; the boundary pair is `2024-01-02` on page 1 against
`2024-01-01` on page 2. -/
theorem getPaginatedJobs_desc_boundary_witness :
    ∃ kLast kFirst,
      keyOf (([{ baseJob with id := JSVal.num 3, created_at := JSVal.str "2024-01-03" },
               { baseJob with id := JSVal.num 2, created_at := JSVal.str "2024-01-02" }].getLast
        (by decide)).created_at) = some kLast ∧
      keyOf (([{ baseJob with id := JSVal.num 1, created_at := JSVal.str "2024-01-01" }].head
        (by decide)).created_at) = some kFirst ∧
      IDBKey.leb kFirst kLast = true :=
  getPaginatedJobs_desc_boundary
    [{ baseJob with id := JSVal.num 1, created_at := JSVal.str "2024-01-01" },
     { baseJob with id := JSVal.num 2, created_at := JSVal.str "2024-01-02" },
     { baseJob with id := JSVal.num 3, created_at := JSVal.str "2024-01-03" }]
    "Bookmarked" 2 1 (by decide)
    [{ baseJob with id := JSVal.num 3, created_at := JSVal.str "2024-01-03" },
     { baseJob with id := JSVal.num 2, created_at := JSVal.str "2024-01-02" }]
    [{ baseJob with id := JSVal.num 1, created_at := JSVal.str "2024-01-01" }]
    (by rfl) (by rfl) (by decide) (by decide)

/-- C9.  For every sort field other than `status` (title, company_id,
created_at, salary, match_percentage), `getPaginatedJobs` scans the
secondary index on that field, so a job whose sort-field value is not a
valid key (`null` or absent) has no index entry: it is never visited and
never appears on any page, for any status, page and page size. -/
theorem getPaginatedJobs_null_key_invisible (jobs : List Job) (status sortBy : String)
    (page P : Nat) (j : Job) (l : List Job)
    (hfield : effSortKey sortBy ∈
      ["title", "company_id", "created_at", "salary", "match_percentage"])
    (hkey : keyOf (jobIndexField (effSortKey sortBy) j) = none)
    (hok : getPaginatedJobs jobs status sortBy page P = Except.ok l) :
    j ∉ l := by
  intro hmem
  have hidx : effSortKey sortBy ∈ jobIndexNames := by
    by_contra hni
    unfold getPaginatedJobs at hok
    rw [if_neg hni] at hok
    exact Except.noConfusion hok
  rw [getPaginatedJobs_eq_segment jobs status sortBy page P hidx] at hok
  injection hok with e
  rw [← e] at hmem
  have hmem2 : j ∈ matchingSeq jobs status sortBy :=
    ((List.take_sublist _ _).trans (List.drop_sublist _ _)).subset hmem
  have := mem_matchingSeq_key_isSome hmem2
  rw [hkey] at this
  exact Bool.noConfusion this

/-- Witness for C9: the `null`-salary job of a two-job store never shows
up when paginating by `salary ASC`, though its status matches. -/
theorem getPaginatedJobs_null_key_invisible_witness :
    baseJob ∉ [{ baseJob with id := JSVal.num 2, salary := JSVal.num 60 }] :=
  getPaginatedJobs_null_key_invisible
    [baseJob, { baseJob with id := JSVal.num 2, salary := JSVal.num 60 }]
    "Bookmarked" "salary ASC" 1 10 baseJob
    [{ baseJob with id := JSVal.num 2, salary := JSVal.num 60 }]
    (by decide) (by decide) (by rfl)

/-- C6.  `deleteCompany(id)` resolves successfully and removes only the
matching company record: the `jobs`, `profiles` and `people` stores are
untouched — in particular every job keeps its record, dangling
`company_id` included — and all other companies survive. -/
theorem deleteCompany_frame (db : DB) (k : Int) :
    ∃ db', deleteCompany db k = Except.ok db' ∧
      db'.jobs = db.jobs ∧ db'.profiles = db.profiles ∧ db'.people = db.people ∧
      db'.companies.records = db.companies.records.filter
        (fun c => !(decide (keyOf c.id = some (IDBKey.num k)))) ∧
      ∀ j ∈ db.jobs.records, j ∈ db'.jobs.records := by
  refine ⟨_, rfl, rfl, rfl, rfl, rfl, fun j h => h⟩

/-- `put` of an item whose primary key is already present (and no unique
index): the store maps the matching record to the new item, everything
else stays. -/
theorem putItem_found {α : Type} (getId : α → JSVal) (withNumId : α → Int → α)
    (s : Store α) (item : α) (k : IDBKey)
    (hk : keyOf (getId item) = some k)
    (hmem : ∃ p ∈ s.records, keyOf (getId p) = some k) :
    putItem getId withNumId noClash s item =
      Except.ok ⟨s.records.map (fun p => if keyOf (getId p) = some k then item else p),
        bumpNext s.nextId k⟩ := by
  obtain ⟨p, hp, hpk⟩ := hmem
  unfold putItem
  rw [hk]
  simp only [noClash, List.any_eq_true]
  rw [if_neg (by simp), if_pos ⟨p, hp, by simp [hpk]⟩]

/-- C10.  `updateJobNotes(id, notes)` — and likewise `updatePersonNotes` —
rewrites only the `notes` field of the record with that id: the written
record is `{original with notes}`, records with a different id key are
mapped to themselves, and the other three stores are untouched.  When no
record with that id exists, the call resolves successfully and the whole
database is unchanged. -/
theorem updateNotes_frame (db : DB) (k : Int) (notes : JSVal) :
    (getStoreItem Job.id db.jobs k = none → updateJobNotes db k notes = Except.ok db) ∧
    (∀ job, getStoreItem Job.id db.jobs k = some job →
      updateJobNotes db k notes = Except.ok { db with jobs :=
        ⟨db.jobs.records.map (fun p => if keyOf p.id = some (IDBKey.num k)
            then { job with notes := notes } else p),
          bumpNext db.jobs.nextId (IDBKey.num k)⟩ }) ∧
    (getStoreItem Person.id db.people k = none → updatePersonNotes db k notes = Except.ok db) ∧
    (∀ person, getStoreItem Person.id db.people k = some person →
      updatePersonNotes db k notes = Except.ok { db with people :=
        ⟨db.people.records.map (fun p => if keyOf p.id = some (IDBKey.num k)
            then { person with notes := notes } else p),
          bumpNext db.people.nextId (IDBKey.num k)⟩ }) := by
  refine ⟨?_, ?_, ?_, ?_⟩
  · intro hnone
    unfold updateJobNotes
    rw [hnone]
  · intro job hsome
    have hkey : keyOf job.id = some (IDBKey.num k) := by
      have := List.find?_some hsome
      simpa using this
    have hmem : job ∈ db.jobs.records := List.mem_of_find?_eq_some hsome
    unfold updateJobNotes
    rw [hsome]
    show updateJob db { job with notes := notes } = _
    unfold updateJob
    rw [putItem_found Job.id Job.withNumId db.jobs { job with notes := notes }
      (IDBKey.num k) (by simpa using hkey) ⟨job, hmem, hkey⟩]
    rfl
  · intro hnone
    unfold updatePersonNotes
    rw [hnone]
  · intro person hsome
    have hkey : keyOf person.id = some (IDBKey.num k) := by
      have := List.find?_some hsome
      simpa using this
    have hmem : person ∈ db.people.records := List.mem_of_find?_eq_some hsome
    unfold updatePersonNotes
    rw [hsome]
    show updatePerson db { person with notes := notes } = _
    unfold updatePerson
    rw [putItem_found Person.id Person.withNumId db.people { person with notes := notes }
      (IDBKey.num k) (by simpa using hkey) ⟨person, hmem, hkey⟩]
    rfl

/-- A fixture database: one `Bookmarked` job with id 1, nothing else. -/
def oneJobDB : DB :=
  { companies := ⟨[], 1⟩, profiles := ⟨[], 1⟩, people := ⟨[], 1⟩,
    jobs := ⟨[{ baseJob with id := JSVal.num 1 }], 2⟩ }

/-- Witness for C10: patching notes of job 1 rewrites exactly that record;
a miss on the empty `people` store resolves with the database unchanged. -/
theorem updateNotes_frame_witness :
    updateJobNotes oneJobDB 1 (JSVal.str "hello") = Except.ok { oneJobDB with jobs :=
      ⟨oneJobDB.jobs.records.map (fun p => if keyOf p.id = some (IDBKey.num 1)
          then { { baseJob with id := JSVal.num 1 } with notes := JSVal.str "hello" } else p),
        bumpNext oneJobDB.jobs.nextId (IDBKey.num 1)⟩ } ∧
    updatePersonNotes oneJobDB 5 (JSVal.str "x") = Except.ok oneJobDB :=
  ⟨(updateNotes_frame oneJobDB 1 (JSVal.str "hello")).2.1
      { baseJob with id := JSVal.num 1 } (by rfl),
   (updateNotes_frame oneJobDB 5 (JSVal.str "x")).2.2.1 (by rfl)⟩

/-- Two records of a key-distinct list sharing an id key are the same
record. -/
theorem eq_of_key_eq {l : List Job}
    (hp : l.Pairwise (fun a b => keyOf a.id ≠ keyOf b.id)) {a b : Job}
    (ha : a ∈ l) (hb : b ∈ l) (hk : keyOf a.id = keyOf b.id) : a = b := by
  induction l with
  | nil => cases ha
  | cons x xs ih =>
    rw [List.pairwise_cons] at hp
    rcases List.mem_cons.mp ha with rfl | ha' <;> rcases List.mem_cons.mp hb with rfl | hb'
    · rfl
    · exact absurd hk (hp.1 b hb')
    · exact absurd hk.symm (hp.1 a ha')
    · exact ih hp.2 ha' hb'

theorem unlinkJob_id (j : Job) : (unlinkJob j).id = j.id := rfl

theorem unlinkJob_idem (j : Job) : unlinkJob (unlinkJob j) = unlinkJob j := rfl

/-- The cascade's sequence of `updateJob` calls: with distinct id keys it
rewrites exactly the jobs whose id key occurs in the todo list, each to
its unlinked form, touching nothing else. -/
theorem unlinkJobsFold_ok :
    ∀ (todo : List Job) (db : DB),
      (∀ t ∈ todo, t ∈ db.jobs.records) →
      (∀ t ∈ todo, (keyOf t.id).isSome) →
      todo.Pairwise (fun a b => keyOf a.id ≠ keyOf b.id) →
      db.jobs.records.Pairwise (fun a b => keyOf a.id ≠ keyOf b.id) →
      ∃ nid, unlinkJobsFold db todo = Except.ok
        { db with jobs := ⟨db.jobs.records.map
          (fun r => if keyOf r.id ∈ todo.map (fun t => keyOf t.id) then unlinkJob r else r),
          nid⟩ } := by
  intro todo
  induction todo with
  | nil =>
    intro db _ _ _ _
    refine ⟨db.jobs.nextId, ?_⟩
    simp only [unlinkJobsFold, List.foldlM_nil, List.map_nil, List.not_mem_nil, ite_false,
      List.map_id']
    rfl
  | cons t ts ih =>
    intro db hsub hsome hpt hpdb
    obtain ⟨kt, hkt⟩ := Option.isSome_iff_exists.mp (hsome t (List.mem_cons_self t ts))
    have htmem : t ∈ db.jobs.records := hsub t (List.mem_cons_self t ts)
    have hput := putItem_found Job.id Job.withNumId db.jobs (unlinkJob t) kt
      (by rw [unlinkJob_id]; exact hkt) ⟨t, htmem, hkt⟩
    rw [List.pairwise_cons] at hpt
    -- the single update rewrites exactly the key-kt record to its unlinked form
    have hmapeq : db.jobs.records.map
        (fun p => if keyOf p.id = some kt then unlinkJob t else p) =
        db.jobs.records.map
        (fun p => if keyOf p.id = some kt then unlinkJob p else p) := by
      apply List.map_congr_left
      intro p hp
      by_cases hc : keyOf p.id = some kt
      · have : p = t := eq_of_key_eq hpdb hp htmem (by rw [hc, hkt])
        rw [this]
      · simp [hc]
    set db1 : DB := { db with jobs :=
      ⟨db.jobs.records.map (fun p => if keyOf p.id = some kt then unlinkJob p else p),
        bumpNext db.jobs.nextId kt⟩ } with hdb1
    have hstep : updateJob db (unlinkJob t) = Except.ok db1 := by
      unfold updateJob
      rw [hput, hmapeq]
      rfl
    -- id keys are untouched by the rewrite
    have hkeymap : ∀ p : Job,
        keyOf (if keyOf p.id = some kt then unlinkJob p else p).id = keyOf p.id := by
      intro p
      by_cases hc : keyOf p.id = some kt <;> simp [hc, unlinkJob_id]
    have hsub1 : ∀ t' ∈ ts, t' ∈ db1.jobs.records := by
      intro t' ht'
      have hne : keyOf t'.id ≠ some kt := by
        rw [← hkt]; exact fun e => hpt.1 t' ht' (by rw [e, hkt])
      have : (if keyOf t'.id = some kt then unlinkJob t' else t') = t' := by simp [hne]
      rw [hdb1]
      exact this ▸ List.mem_map_of_mem _ (hsub t' (List.mem_cons_of_mem t ht'))
    have hsome1 : ∀ t' ∈ ts, (keyOf t'.id).isSome :=
      fun t' ht' => hsome t' (List.mem_cons_of_mem t ht')
    have hpdb1 : db1.jobs.records.Pairwise (fun a b => keyOf a.id ≠ keyOf b.id) := by
      rw [hdb1]
      simp only [List.pairwise_map]
      refine hpdb.imp ?_
      intro a b hab
      rw [hkeymap a, hkeymap b]
      exact hab
    obtain ⟨nid, hrest⟩ := ih db1 hsub1 hsome1 hpt.2 hpdb1
    refine ⟨nid, ?_⟩
    have hchain : unlinkJobsFold db (t :: ts) = unlinkJobsFold db1 ts := by
      unfold unlinkJobsFold
      rw [List.foldlM_cons, hstep]
      rfl
    rw [hchain, hrest]
    -- collapse the two rewrites into one pass over the original records
    congr 1
    rw [hdb1]
    simp only [List.map_map, List.map_cons]
    congr 2
    apply List.map_congr_left
    intro p _
    simp only [Function.comp]
    by_cases hc : keyOf p.id = some kt
    · simp only [hc, ite_true, unlinkJob_id]
      by_cases hm : some kt ∈ ts.map (fun t => keyOf t.id)
      · simp [hm, unlinkJob_idem, hc, ← hkt]
      · simp [hm, hc, ← hkt]
        exact fun x _ _ => unlinkJob_idem p
    · simp only [hc, ite_false]
      by_cases hm : keyOf p.id ∈ ts.map (fun t => keyOf t.id)
      · simp [hm, hc, hkt]
      · simp [hm, hc, hkt]

/-- C2 (amended).  The cascade path — the `profiles-table-body` delete
listener — finds every job whose `profile_id` key equals the target id,
nulls `profile_id`, `match_percentage` and `match_justification` on each
(via `updateJob`), and only then deletes the profile: afterwards no job
references the deleted profile, other fields and stores are untouched.
The amendment: this holds for the cascade path only, because the
confirm-modal path (`handleDeleteConfirmed`, case `'profile'`) deletes the
profile with no unlinking — see the counterexample. -/
theorem deleteProfileCascade_ok (db : DB) (pid : Int)
    (hpdb : db.jobs.records.Pairwise (fun a b => keyOf a.id ≠ keyOf b.id))
    (hsome : ∀ r ∈ db.jobs.records, (keyOf r.id).isSome) :
    ∃ db', deleteProfileCascade db pid = Except.ok db' ∧
      db'.companies = db.companies ∧ db'.people = db.people ∧
      db'.profiles.records = db.profiles.records.filter
        (fun p => !(decide (keyOf p.id = some (IDBKey.num pid)))) ∧
      db'.jobs.records = db.jobs.records.map
        (fun r => if keyOf r.profile_id = some (IDBKey.num pid) then unlinkJob r else r) ∧
      (∀ r ∈ db'.jobs.records, keyOf r.profile_id ≠ some (IDBKey.num pid)) ∧
      (∀ p ∈ db'.profiles.records, keyOf p.id ≠ some (IDBKey.num pid)) := by
  have hsub : ∀ t ∈ getJobsByProfileId db pid, t ∈ db.jobs.records :=
    fun t ht => List.mem_of_mem_filter ht
  have hsome' : ∀ t ∈ getJobsByProfileId db pid, (keyOf t.id).isSome :=
    fun t ht => hsome t (hsub t ht)
  have hpt : (getJobsByProfileId db pid).Pairwise (fun a b => keyOf a.id ≠ keyOf b.id) :=
    hpdb.filter _
  obtain ⟨nid, hfold⟩ := unlinkJobsFold_ok (getJobsByProfileId db pid) db hsub hsome' hpt hpdb
  have hmapeq : db.jobs.records.map
      (fun r => if keyOf r.id ∈ (getJobsByProfileId db pid).map (fun t => keyOf t.id)
        then unlinkJob r else r) =
      db.jobs.records.map
      (fun r => if keyOf r.profile_id = some (IDBKey.num pid) then unlinkJob r else r) := by
    apply List.map_congr_left
    intro r hr
    by_cases hmem : keyOf r.id ∈ (getJobsByProfileId db pid).map (fun t => keyOf t.id)
    · obtain ⟨t, ht, hkeq⟩ := List.mem_map.mp hmem
      have : t = r := eq_of_key_eq hpdb (hsub t ht) hr hkeq
      subst this
      have hp : keyOf t.profile_id = some (IDBKey.num pid) := by
        have := (List.mem_filter.mp ht).2
        simpa using this
      simp [hmem, hp]
    · have hp : ¬ keyOf r.profile_id = some (IDBKey.num pid) := by
        intro hp
        apply hmem
        exact List.mem_map_of_mem _ (List.mem_filter.mpr ⟨hr, by simpa using hp⟩)
      simp [hmem, hp]
  refine ⟨DB.mk db.companies
      ⟨db.profiles.records.filter
        (fun p => !(decide (keyOf p.id = some (IDBKey.num pid)))), db.profiles.nextId⟩
      db.people
      ⟨db.jobs.records.map
        (fun r => if keyOf r.profile_id = some (IDBKey.num pid) then unlinkJob r else r),
        nid⟩, ?_, rfl, rfl, rfl, rfl, ?_, ?_⟩
  · have hrun : deleteProfileCascade db pid = Except.ok (DB.mk db.companies
        ⟨db.profiles.records.filter
          (fun p => !(decide (keyOf p.id = some (IDBKey.num pid)))), db.profiles.nextId⟩
        db.people
        ⟨db.jobs.records.map
          (fun r => if keyOf r.id ∈ (getJobsByProfileId db pid).map (fun t => keyOf t.id)
            then unlinkJob r else r), nid⟩) := by
      unfold deleteProfileCascade
      show unlinkJobsFold db (getJobsByProfileId db pid) >>=
        (fun db1 => deleteProfile db1 pid) = _
      rw [hfold]
      rfl
    rw [hrun, hmapeq]
  · intro r hr
    obtain ⟨p, _, hpr⟩ := List.mem_map.mp hr
    by_cases hc : keyOf p.profile_id = some (IDBKey.num pid)
    · rw [if_pos hc] at hpr
      rw [← hpr]
      intro h
      exact Option.noConfusion h
    · rw [if_neg hc] at hpr
      rw [← hpr]
      exact hc
  · intro p hp
    have := (List.mem_filter.mp hp).2
    simpa using this


/-- A fixture profile record. -/
def baseProfile : Profile :=
  { id := JSVal.num 1
    name := JSVal.str "Resume A"
    content := JSVal.str "text"
    notes := JSVal.undef
    created_at := JSVal.str "2024-01-01T00:00:00.000Z" }

/-- A job linked to profile 1, with match data set. -/
def linkedJob1 : Job :=
  { baseJob with
    id := JSVal.num 1
    profile_id := JSVal.num 1
    match_percentage := JSVal.num 80
    match_justification := JSVal.str "good fit" }

/-- A second job linked to profile 1. -/
def linkedJob2 : Job :=
  { baseJob with
    id := JSVal.num 2
    profile_id := JSVal.num 1
    match_percentage := JSVal.num 55
    match_justification := JSVal.str "partial fit" }

/-- A fixture database: profile 1 plus two jobs linked to it and one job
linked to nothing. -/
def cascadeDB : DB :=
  { companies := ⟨[], 1⟩
    profiles := ⟨[baseProfile], 2⟩
    people := ⟨[], 1⟩
    jobs := ⟨[linkedJob1, linkedJob2, { baseJob with id := JSVal.num 3 }], 4⟩ }

/-- Witness for C2 (amended): the cascade delete of profile 1 on
`cascadeDB`. -/
theorem deleteProfileCascade_ok_witness :
    ∃ db', deleteProfileCascade cascadeDB 1 = Except.ok db' ∧
      db'.companies = cascadeDB.companies ∧ db'.people = cascadeDB.people ∧
      db'.profiles.records = cascadeDB.profiles.records.filter
        (fun p => !(decide (keyOf p.id = some (IDBKey.num 1)))) ∧
      db'.jobs.records = cascadeDB.jobs.records.map
        (fun r => if keyOf r.profile_id = some (IDBKey.num 1) then unlinkJob r else r) ∧
      (∀ r ∈ db'.jobs.records, keyOf r.profile_id ≠ some (IDBKey.num 1)) ∧
      (∀ p ∈ db'.profiles.records, keyOf p.id ≠ some (IDBKey.num 1)) :=
  deleteProfileCascade_ok cascadeDB 1 (by decide) (by decide)

/-- Counterexample to C2 as stated: the live confirm-modal path
(`handleDeleteConfirmed`, case `'profile'`) is also a profile delete, it
succeeds, yet it unlinks nothing — afterwards job 1 still carries
`profile_id = 1` although profile 1 is gone. -/
theorem deleteProfileCascade_cex :
    ∃ db', handleDeleteConfirmedProfile cascadeDB 1 = Except.ok db' ∧
      getStoreItem Profile.id db'.profiles 1 = none ∧
      ∃ j ∈ db'.jobs.records, j.profile_id = JSVal.num 1 := by
  refine ⟨_, rfl, by decide, linkedJob1, by decide, rfl⟩

/-- C5 (amended).  On the read path a miss is the nullable outcome `none`;
but on the write paths a missing target is **not** an error: `deleteItem`
(`store.delete`) resolves successfully whether or not the key exists,
`updateItem` (`store.put`) on an id that is not in the store succeeds by
inserting the record, and `updateJobNotes` on a missing id resolves
successfully leaving the database unchanged. -/
theorem missing_target_never_fails (db : DB) (k kk : Int) (notes : JSVal) (j : Job) :
    (∃ db', deleteJob db k = Except.ok db') ∧
    (getStoreItem Job.id db.jobs k = none → updateJobNotes db k notes = Except.ok db) ∧
    (j.id = JSVal.num kk →
      (∀ p ∈ db.jobs.records, keyOf p.id ≠ some (IDBKey.num kk)) →
      updateJob db j = Except.ok { db with jobs :=
        ⟨db.jobs.records ++ [j], bumpNext db.jobs.nextId (IDBKey.num kk)⟩ }) := by
  refine ⟨⟨_, rfl⟩, ?_, ?_⟩
  · intro hnone
    unfold updateJobNotes
    rw [hnone]
  · intro hid hnot
    unfold updateJob putItem
    rw [hid]
    show Except.map _ (if _ then _ else if _ then _ else _) = _
    rw [if_neg (by simp [noClash]), if_neg ?hmiss]
    case hmiss =>
      simp only [List.any_eq_true, not_exists, not_and]
      intro p hp
      simp [hnot p hp]
    rfl

/-- Counterexample to C5 as stated: on the empty store, deleting id 5
succeeds (and changes nothing), `put` of a record with fresh id 7 succeeds
by inserting it, and `updateJobNotes` on missing id 3 resolves without
effect — none of these update/delete paths fails on a missing target. -/
theorem missing_target_never_fails_cex :
    deleteJob oneJobDB 5 = Except.ok oneJobDB ∧
    updateJob oneJobDB { baseJob with id := JSVal.num 7 } = Except.ok { oneJobDB with jobs :=
      ⟨oneJobDB.jobs.records ++ [{ baseJob with id := JSVal.num 7 }],
        bumpNext oneJobDB.jobs.nextId (IDBKey.num 7)⟩ } ∧
    updateJobNotes oneJobDB 3 (JSVal.str "note") = Except.ok oneJobDB := by
  refine ⟨?_, ?_, ?_⟩ <;> rfl

/-- Witness for C5 (amended): `put` of job 7 into a store that has no id 7
succeeds by inserting. -/
theorem missing_target_never_fails_witness :
    updateJob oneJobDB { baseJob with id := JSVal.num 7 } = Except.ok { oneJobDB with jobs :=
      ⟨oneJobDB.jobs.records ++ [{ baseJob with id := JSVal.num 7 }],
        bumpNext oneJobDB.jobs.nextId (IDBKey.num 7)⟩ } :=
  (missing_target_never_fails oneJobDB 3 7 (JSVal.str "x")
    { baseJob with id := JSVal.num 7 }).2.2 rfl (by decide)

/-- A valid id key is neither `null` nor `undefined`, so the import-time
id strip leaves the record alone. -/
theorem strip_eq_self_of_isSome {α : Type} (getId : α → JSVal) (delId : α → α)
    {item : α} (h : (keyOf (getId item)).isSome) :
    (if getId item = JSVal.null ∨ getId item = JSVal.undef then delId item else item) = item := by
  rw [if_neg]
  rintro (h1 | h1) <;> rw [h1] at h <;> exact Bool.noConfusion h

/-- Reducing a successful `bind` (the awaited per-record promise chain). -/
theorem except_ok_bind {ε α β : Type} (a : α) (f : α → Except ε β) :
    (Except.ok a >>= f : Except ε β) = f a := rfl

/-- The import loop inserts every record when all ids are valid, mutually
distinct, absent from the store, and no unique-index clash occurs: no add
fails, so the run completes without aborting. -/
theorem importStoreFold_append {α : Type} (getId : α → JSVal) (withNumId : α → Int → α)
    (delId : α → α) (clash : α → α → Bool) :
    ∀ (items : List α) (s : Store α),
      (∀ r ∈ items, (keyOf (getId r)).isSome) →
      items.Pairwise (fun a b => keyOf (getId a) ≠ keyOf (getId b)) →
      (∀ r ∈ items, ∀ p ∈ s.records, keyOf (getId p) ≠ keyOf (getId r)) →
      (∀ r ∈ items, ∀ p ∈ s.records, clash p r = false) →
      items.Pairwise (fun a b => clash a b = false) →
      ∃ nid, importStoreFold getId withNumId delId clash s items =
        Except.ok (Store.mk (s.records ++ items) nid) := by
  intro items
  induction items with
  | nil =>
    intro s _ _ _ _ _
    refine ⟨s.nextId, ?_⟩
    simp only [importStoreFold, List.foldlM_nil, List.append_nil]
    rfl
  | cons r rs ih =>
    intro s hv hpk hold hcold hpc
    have hvr := hv r (List.mem_cons_self r rs)
    obtain ⟨k, hk⟩ := Option.isSome_iff_exists.mp hvr
    rw [List.pairwise_cons] at hpk hpc
    have hdup : (s.records.any fun p => decide (keyOf (getId p) = some k)) = false := by
      rw [List.any_eq_false]
      intro p hp
      have := hold r (List.mem_cons_self r rs) p hp
      rw [hk] at this
      simp [this]
    have hcl : (s.records.any fun p => clash p r) = false := by
      rw [List.any_eq_false]
      intro p hp
      simp [hcold r (List.mem_cons_self r rs) p hp]
    have hstep : importStep getId withNumId delId clash s r =
        Except.ok ⟨s.records ++ [r], bumpNext s.nextId k⟩ := by
      simp only [importStep, strip_eq_self_of_isSome getId delId hvr, addItem, hk, hdup, hcl,
        Bool.false_eq_true, if_false, ite_false, Except.map]
    have hold' : ∀ x ∈ rs, ∀ p ∈ s.records ++ [r], keyOf (getId p) ≠ keyOf (getId x) := by
      intro x hx p hp
      rcases List.mem_append.mp hp with hp' | hp'
      · exact hold x (List.mem_cons_of_mem r hx) p hp'
      · rw [List.mem_singleton.mp hp']
        exact hpk.1 x hx
    have hcold' : ∀ x ∈ rs, ∀ p ∈ s.records ++ [r], clash p x = false := by
      intro x hx p hp
      rcases List.mem_append.mp hp with hp' | hp'
      · exact hcold x (List.mem_cons_of_mem r hx) p hp'
      · rw [List.mem_singleton.mp hp']
        exact hpc.1 x hx
    obtain ⟨nid, hrest⟩ := ih ⟨s.records ++ [r], bumpNext s.nextId k⟩
      (fun x hx => hv x (List.mem_cons_of_mem r hx))
      hpk.2 hold' hcold' hpc.2
    refine ⟨nid, ?_⟩
    have hchain : importStoreFold getId withNumId delId clash s (r :: rs) =
        importStoreFold getId withNumId delId clash ⟨s.records ++ [r], bumpNext s.nextId k⟩ rs := by
      unfold importStoreFold
      rw [List.foldlM_cons, hstep]
      rfl
    rw [hchain, hrest]
    simp

/-- A successful `add` appends exactly one record: the item itself, or the
item with the generated id injected. -/
theorem addItem_ok_records {α : Type} (getId : α → JSVal) (withNumId : α → Int → α)
    (clash : α → α → Bool) (s : Store α) (item : α) (s' : Store α) (kk : IDBKey)
    (h : addItem getId withNumId clash s item = Except.ok (s', kk)) :
    ∃ x, s'.records = s.records ++ [x] ∧ (x = item ∨ ∃ n : Int, x = withNumId item n) := by
  unfold addItem at h
  split at h
  · split at h
    · exact Except.noConfusion h
    · split at h
      · exact Except.noConfusion h
      · injection h with h1
        injection h1 with h2 h3
        exact ⟨item, by rw [← h2], Or.inl rfl⟩
  · split at h
    · split at h
      · exact Except.noConfusion h
      · split at h
        · exact Except.noConfusion h
        · injection h with h1
          injection h1 with h2 h3
          exact ⟨withNumId item s.nextId, by rw [← h2], Or.inr ⟨s.nextId, rfl⟩⟩
    · exact Except.noConfusion h

/-- Every record in the store after a **successful** import loop either
was already there or comes from the document: unchanged when its id was a
valid key, stripped and re-keyed from the generator when its id was
`null` or absent. -/
theorem importStoreFold_sound {α : Type} (getId : α → JSVal) (withNumId : α → Int → α)
    (delId : α → α) (clash : α → α → Bool) :
    ∀ (items : List α) (s s' : Store α),
      importStoreFold getId withNumId delId clash s items = Except.ok s' →
      ∀ r ∈ s'.records,
        r ∈ s.records ∨ ∃ item ∈ items,
          r = item ∨ r = delId item ∨
          (∃ n : Int, r = withNumId item n) ∨
          (∃ n : Int, r = withNumId (delId item) n) := by
  intro items
  induction items with
  | nil =>
    intro s s' h r hr
    have hs : s = s' := by
      have h' : Except.ok s = Except.ok s' := h
      injection h'
    exact Or.inl (hs ▸ hr)
  | cons i is ih =>
    intro s s' h r hr
    have hchain : importStoreFold getId withNumId delId clash s (i :: is) =
        importStep getId withNumId delId clash s i >>=
          (fun s1 => importStoreFold getId withNumId delId clash s1 is) := by
      unfold importStoreFold
      rw [List.foldlM_cons]
    rw [hchain] at h
    cases hstep : importStep getId withNumId delId clash s i with
    | error e =>
      rw [hstep] at h
      exact Except.noConfusion h
    | ok s1 =>
      rw [hstep] at h
      rw [except_ok_bind] at h
      rcases ih s1 s' h r hr with h1 | ⟨item, hmem, hc⟩
      · -- r was in the store after the single successful add
        have hstep' : (addItem getId withNumId clash s
            (if getId i = JSVal.null ∨ getId i = JSVal.undef then delId i else i)).map
            (fun r => r.1) = Except.ok s1 := hstep
        cases hadd : addItem getId withNumId clash s
            (if getId i = JSVal.null ∨ getId i = JSVal.undef then delId i else i) with
        | error e =>
          rw [hadd] at hstep'
          exact Except.noConfusion hstep'
        | ok p =>
          rw [hadd] at hstep'
          simp only [Except.map] at hstep'
          injection hstep' with h2
          obtain ⟨x, hx, hcase⟩ := addItem_ok_records _ _ _ _ _ p.1 p.2 (by rw [hadd])
          rw [← h2, hx] at h1
          rcases List.mem_append.mp h1 with h3 | h3
          · exact Or.inl h3
          · rw [List.mem_singleton.mp h3]
            refine Or.inr ⟨i, List.mem_cons_self i is, ?_⟩
            by_cases hni : getId i = JSVal.null ∨ getId i = JSVal.undef
            · rw [if_pos hni] at hcase
              rcases hcase with rfl | ⟨n, rfl⟩
              · exact Or.inr (Or.inl rfl)
              · exact Or.inr (Or.inr (Or.inr ⟨n, rfl⟩))
            · rw [if_neg hni] at hcase
              rcases hcase with rfl | ⟨n, rfl⟩
              · exact Or.inl rfl
              · exact Or.inr (Or.inr (Or.inl ⟨n, rfl⟩))
      · exact Or.inr ⟨item, List.mem_cons_of_mem i hmem, hc⟩

theorem companyNameClash_comm (a b : Company) : companyNameClash a b = companyNameClash b a := by
  unfold companyNameClash
  cases keyOf a.name <;> cases keyOf b.name <;> simp
  exact ⟨Eq.symm, Eq.symm⟩

/-- Restoring a store's own `getAll` dump into the cleared store succeeds
(no add can fail on this domain) and brings back exactly the same records
(as a permutation — `getAll` is key ordered). -/
theorem roundtrip_store {α : Type} (getId : α → JSVal) (withNumId : α → Int → α)
    (delId : α → α) (clash : α → α → Bool)
    (hsym : ∀ a b, clash a b = clash b a) (s : Store α) (n : Int)
    (hv : ∀ r ∈ s.records, (keyOf (getId r)).isSome)
    (hpk : s.records.Pairwise (fun a b => keyOf (getId a) ≠ keyOf (getId b)))
    (hpc : s.records.Pairwise (fun a b => clash a b = false)) :
    ∃ s', importStoreFold getId withNumId delId clash ⟨[], n⟩ (getAllStore getId s) =
      Except.ok s' ∧ s'.records.Perm s.records := by
  have hperm : (getAllStore getId s).Perm s.records := List.perm_insertionSort _ _
  have hv' : ∀ r ∈ getAllStore getId s, (keyOf (getId r)).isSome :=
    fun r hr => hv r (hperm.mem_iff.mp hr)
  have hpk' : (getAllStore getId s).Pairwise (fun a b => keyOf (getId a) ≠ keyOf (getId b)) :=
    (hperm.pairwise_iff (fun h => h.symm)).mpr hpk
  have hpc' : (getAllStore getId s).Pairwise (fun a b => clash a b = false) :=
    (hperm.pairwise_iff (fun {x y} h => (hsym y x).trans h)).mpr hpc
  obtain ⟨nid, hok⟩ := importStoreFold_append getId withNumId delId clash
    (getAllStore getId s) ⟨[], n⟩ hv' hpk'
    (fun r _ p hp => absurd hp (List.not_mem_nil p))
    (fun r _ p hp => absurd hp (List.not_mem_nil p)) hpc'
  refine ⟨_, hok, ?_⟩
  simpa using hperm

/-- C3.  `importDB (exportDB db)` restores an equivalent database: under
the store invariants (every stored record has a valid id key, ids are
unique per store, and company name keys do not collide — exactly what the
engine's primary keys and the unique `name` index maintain), no add fails,
the restore resolves successfully, and every one of the four stores comes
back as a permutation of its original records, ids included, because
every exported record carries its id and `add` keeps explicit ids. -/
theorem importDB_exportDB_roundtrip (db : DB)
    (hcv : ∀ r ∈ db.companies.records, (keyOf r.id).isSome)
    (hck : db.companies.records.Pairwise (fun a b => keyOf a.id ≠ keyOf b.id))
    (hcn : db.companies.records.Pairwise (fun a b => companyNameClash a b = false))
    (hpv : ∀ r ∈ db.profiles.records, (keyOf r.id).isSome)
    (hpk : db.profiles.records.Pairwise (fun a b => keyOf a.id ≠ keyOf b.id))
    (hev : ∀ r ∈ db.people.records, (keyOf r.id).isSome)
    (hek : db.people.records.Pairwise (fun a b => keyOf a.id ≠ keyOf b.id))
    (hjv : ∀ r ∈ db.jobs.records, (keyOf r.id).isSome)
    (hjk : db.jobs.records.Pairwise (fun a b => keyOf a.id ≠ keyOf b.id)) :
    ∃ db', importDB db (exportDB db) = Except.ok db' ∧
      db'.companies.records.Perm db.companies.records ∧
      db'.profiles.records.Perm db.profiles.records ∧
      db'.people.records.Perm db.people.records ∧
      db'.jobs.records.Perm db.jobs.records := by
  obtain ⟨sc, hcok, hcperm⟩ := roundtrip_store Company.id Company.withNumId Company.delId
    companyNameClash companyNameClash_comm db.companies db.companies.nextId hcv hck hcn
  obtain ⟨sp, hpok, hpperm⟩ := roundtrip_store Profile.id Profile.withNumId Profile.delId
    noClash (fun _ _ => rfl) db.profiles db.profiles.nextId hpv hpk
    (List.Pairwise.imp (fun _ => rfl) hpk)
  obtain ⟨se, heok, heperm⟩ := roundtrip_store Person.id Person.withNumId Person.delId
    noClash (fun _ _ => rfl) db.people db.people.nextId hev hek
    (List.Pairwise.imp (fun _ => rfl) hek)
  obtain ⟨sj, hjok, hjperm⟩ := roundtrip_store Job.id Job.withNumId Job.delId
    noClash (fun _ _ => rfl) db.jobs db.jobs.nextId hjv hjk
    (List.Pairwise.imp (fun _ => rfl) hjk)
  refine ⟨DB.mk sc sp se sj, ?_, hcperm, hpperm, heperm, hjperm⟩
  have hcok' : importStoreFold Company.id Company.withNumId Company.delId companyNameClash
      ⟨[], db.companies.nextId⟩ (exportDB db).companies = Except.ok sc := hcok
  have hpok' : importStoreFold Profile.id Profile.withNumId Profile.delId noClash
      ⟨[], db.profiles.nextId⟩ (exportDB db).profiles = Except.ok sp := hpok
  have heok' : importStoreFold Person.id Person.withNumId Person.delId noClash
      ⟨[], db.people.nextId⟩ (exportDB db).people = Except.ok se := heok
  have hjok' : importStoreFold Job.id Job.withNumId Job.delId noClash
      ⟨[], db.jobs.nextId⟩ (exportDB db).jobs = Except.ok sj := hjok
  unfold importDB
  rw [hcok', except_ok_bind, hpok', except_ok_bind, heok', except_ok_bind, hjok',
    except_ok_bind]
  rfl

/-- A fixture company record. -/
def baseCompany : Company :=
  { id := JSVal.num 1
    name := JSVal.str "Acme"
    industry := JSVal.str "Robotics"
    location := JSVal.undef
    website := JSVal.undef
    linkedin := JSVal.undef
    notes := JSVal.undef }

/-- A fixture contact record. -/
def basePerson : Person :=
  { id := JSVal.num 1
    first_name := JSVal.str "Ada"
    last_name := JSVal.str "Lovelace"
    job_title := JSVal.undef
    company_name := JSVal.str "Acme"
    email := JSVal.undef
    linkedin := JSVal.undef
    notes := JSVal.undef }

/-- A populated fixture database covering all four stores. -/
def roundtripDB : DB :=
  { companies := ⟨[baseCompany, { baseCompany with id := JSVal.num 2, name := JSVal.str "Globex" }], 3⟩
    profiles := ⟨[baseProfile], 2⟩
    people := ⟨[basePerson], 2⟩
    jobs := ⟨[linkedJob1, { baseJob with id := JSVal.num 2 }], 3⟩ }

/-- Witness for C3: the round trip on `roundtripDB`. -/
theorem importDB_exportDB_roundtrip_witness :
    ∃ db', importDB roundtripDB (exportDB roundtripDB) = Except.ok db' ∧
      db'.companies.records.Perm roundtripDB.companies.records ∧
      db'.profiles.records.Perm roundtripDB.profiles.records ∧
      db'.people.records.Perm roundtripDB.people.records ∧
      db'.jobs.records.Perm roundtripDB.jobs.records :=
  importDB_exportDB_roundtrip roundtripDB (by decide) (by decide) (by decide) (by decide)
    (by decide) (by decide) (by decide) (by decide) (by decide)

theorem Job.delId_id (a : Job) : (Job.delId a).id = JSVal.undef := rfl

/-- C4.  The claim (and the spec, and the code's own comment "Log error
but don't stop import") describe partial-success semantics, but the
`onerror` handler never calls `event.preventDefault()`: per IndexedDB the
uncanceled error event aborts the single readwrite transaction carrying
all clears and adds, everything rolls back and `importDB` rejects —
all-or-nothing, the opposite of partial success.  At the failing input —
a jobs array `[id 1, id 1 again, id 2]`, whose middle record's `add`
raises `ConstraintError` — the restore aborts instead of skipping the
duplicate, while the same document without the duplicate restores in
full. -/
theorem importDB_aborts_on_failed_add :
    importDB oneJobDB (ExportDoc.mk [] [] []
      [{ baseJob with id := JSVal.num 1 },
       { baseJob with id := JSVal.num 1, title := JSVal.str "dup" },
       { baseJob with id := JSVal.num 2 }]) =
      Except.error "ConstraintError: primary key already exists" ∧
    ∃ db', importDB oneJobDB (ExportDoc.mk [] [] []
      [{ baseJob with id := JSVal.num 1 }, { baseJob with id := JSVal.num 2 }]) =
        Except.ok db' ∧
      db'.jobs.records =
        [{ baseJob with id := JSVal.num 1 }, { baseJob with id := JSVal.num 2 }] := by
  refine ⟨rfl, _, rfl, rfl⟩

/-- A job's `status` is one of the eight `JOB_STATUSES` strings. -/
def jobStatusValid (j : Job) : Bool :=
  JOB_STATUSES.any (fun s => decide (j.status = JSVal.str s))

theorem Job.withNumId_status (j : Job) (n : Int) : (Job.withNumId j n).status = j.status := rfl

theorem Job.delId_status (j : Job) : (Job.delId j).status = j.status := rfl

/-- Every record of a store produced by a successful `put` either was
there before or is the written item (possibly with a generated id). -/
theorem putItem_ok_mem {α : Type} (getId : α → JSVal) (withNumId : α → Int → α)
    (clash : α → α → Bool) (s : Store α) (item : α) (s' : Store α)
    (h : putItem getId withNumId clash s item = Except.ok s') :
    ∀ r ∈ s'.records, r ∈ s.records ∨ r = item ∨ ∃ n : Int, r = withNumId item n := by
  unfold putItem at h
  split at h
  · rename_i k heq
    split at h
    · exact Except.noConfusion h
    · split at h
      · injection h with h1
        intro r hr
        rw [← h1] at hr
        obtain ⟨p, hp, hpe⟩ := List.mem_map.mp hr
        by_cases hc : keyOf (getId p) = some k
        · rw [if_pos hc] at hpe
          exact Or.inr (Or.inl hpe.symm)
        · rw [if_neg hc] at hpe
          exact Or.inl (hpe ▸ hp)
      · injection h with h1
        intro r hr
        rw [← h1] at hr
        rcases List.mem_append.mp hr with h2 | h2
        · exact Or.inl h2
        · exact Or.inr (Or.inl (List.mem_singleton.mp h2))
  · split at h
    · split at h
      · exact Except.noConfusion h
      · injection h with h1
        intro r hr
        rw [← h1] at hr
        rcases List.mem_append.mp hr with h2 | h2
        · exact Or.inl h2
        · exact Or.inr (Or.inr ⟨s.nextId, List.mem_singleton.mp h2⟩)
    · exact Except.noConfusion h

/-- C8 (amended).  The UI write paths preserve the status enum invariant:
new jobs are created `'Bookmarked'`, the edit form carries the original
status over, and status editing (kanban drop / inline select) only writes
a member of `JOB_STATUSES`.  `importDB`, however, validates nothing, so
the invariant survives an import **only if** every job of the document
already carries a valid status — see the counterexample for the
violation. -/
theorem job_status_invariant (db : DB)
    (hinv : ∀ j ∈ db.jobs.records, jobStatusValid j) :
    (∀ (formJob : Job) (now : String) (db' : DB) (k : IDBKey),
      handleAddJobNew db formJob now = Except.ok (db', k) →
      ∀ j ∈ db'.jobs.records, jobStatusValid j) ∧
    (∀ (formJob originalJob : Job) (db' : DB),
      originalJob ∈ db.jobs.records →
      handleEditJobSave db formJob originalJob = Except.ok db' →
      ∀ j ∈ db'.jobs.records, jobStatusValid j) ∧
    (∀ (jobId : Int) (newStatus : String) (db' : DB),
      newStatus ∈ JOB_STATUSES →
      setJobStatus db jobId newStatus = Except.ok db' →
      ∀ j ∈ db'.jobs.records, jobStatusValid j) ∧
    (∀ (doc : ExportDoc) (db' : DB),
      (∀ item ∈ doc.jobs, jobStatusValid item) →
      importDB db doc = Except.ok db' →
      ∀ j ∈ db'.jobs.records, jobStatusValid j) := by
  refine ⟨?_, ?_, ?_, ?_⟩
  · intro formJob now db' k h
    unfold handleAddJobNew addJob at h
    cases hadd : addItem Job.id Job.withNumId noClash db.jobs
        { formJob with
          created_at := JSVal.str now
          status := JSVal.str "Bookmarked"
          match_percentage := JSVal.null
          profile_id := JSVal.null
          match_justification := JSVal.null
          ai_keywords := JSVal.null } with
    | error e => rw [hadd] at h; exact Except.noConfusion h
    | ok p =>
      rw [hadd] at h
      simp only [Except.map] at h
      injection h with h1
      injection h1 with h2 h3
      obtain ⟨x, hx, hcase⟩ := addItem_ok_records _ _ _ _ _ p.1 p.2 (by rw [hadd])
      intro j hj
      rw [← h2] at hj
      have hj' : j ∈ db.jobs.records ++ [x] := by rw [← hx]; exact hj
      rcases List.mem_append.mp hj' with hmem | hmem
      · exact hinv j hmem
      · rw [List.mem_singleton.mp hmem]
        have hxs : x.status = JSVal.str "Bookmarked" := by
          rcases hcase with rfl | ⟨n, rfl⟩
          · rfl
          · rw [Job.withNumId_status]
        unfold jobStatusValid
        rw [hxs]
        decide
  · intro formJob originalJob db' hom h
    unfold handleEditJobSave updateJob at h
    cases hput : putItem Job.id Job.withNumId noClash db.jobs
        { formJob with
          status := originalJob.status
          created_at := originalJob.created_at
          profile_id := originalJob.profile_id
          match_percentage := originalJob.match_percentage
          match_justification := originalJob.match_justification
          ai_keywords := originalJob.ai_keywords } with
    | error e => rw [hput] at h; exact Except.noConfusion h
    | ok s' =>
      rw [hput] at h
      simp only [Except.map] at h
      injection h with h1
      intro j hj
      rw [← h1] at hj
      rcases putItem_ok_mem _ _ _ _ _ _ (by rw [hput]) j hj with hmem | hmem | ⟨n, hn⟩
      · exact hinv j hmem
      · rw [hmem]
        unfold jobStatusValid
        show (JOB_STATUSES.any fun s => decide (originalJob.status = JSVal.str s)) = true
        exact hinv originalJob hom
      · rw [hn]
        unfold jobStatusValid
        rw [Job.withNumId_status]
        show (JOB_STATUSES.any fun s => decide (originalJob.status = JSVal.str s)) = true
        exact hinv originalJob hom
  · intro jobId newStatus db' hns h
    unfold setJobStatus at h
    cases hget : getJob db jobId with
    | none =>
      rw [hget] at h
      injection h with h1
      rw [← h1]
      exact hinv
    | some job =>
      rw [hget] at h
      have h' : updateJob db { job with status := JSVal.str newStatus } = Except.ok db' := h
      unfold updateJob at h'
      cases hput : putItem Job.id Job.withNumId noClash db.jobs
          { job with status := JSVal.str newStatus } with
      | error e => rw [hput] at h'; exact Except.noConfusion h'
      | ok s' =>
        rw [hput] at h'
        simp only [Except.map] at h'
        injection h' with h1
        intro j hj
        rw [← h1] at hj
        have hvalid : (JOB_STATUSES.any fun s =>
            decide (JSVal.str newStatus = JSVal.str s)) = true :=
          List.any_eq_true.mpr ⟨newStatus, hns, by simp⟩
        rcases putItem_ok_mem _ _ _ _ _ _ (by rw [hput]) j hj with hmem | hmem | ⟨n, hn⟩
        · exact hinv j hmem
        · rw [hmem]; exact hvalid
        · rw [hn]
          unfold jobStatusValid
          rw [Job.withNumId_status]
          exact hvalid
  · intro doc db' hdoc h j hj
    unfold importDB at h
    cases hcf : importStoreFold Company.id Company.withNumId Company.delId companyNameClash
        ⟨[], db.companies.nextId⟩ doc.companies with
    | error e => rw [hcf] at h; exact Except.noConfusion h
    | ok cs =>
      rw [hcf, except_ok_bind] at h
      cases hpf : importStoreFold Profile.id Profile.withNumId Profile.delId noClash
          ⟨[], db.profiles.nextId⟩ doc.profiles with
      | error e => rw [hpf] at h; exact Except.noConfusion h
      | ok ps =>
        rw [hpf, except_ok_bind] at h
        cases hef : importStoreFold Person.id Person.withNumId Person.delId noClash
            ⟨[], db.people.nextId⟩ doc.people with
        | error e => rw [hef] at h; exact Except.noConfusion h
        | ok es =>
          rw [hef, except_ok_bind] at h
          cases hjf : importStoreFold Job.id Job.withNumId Job.delId noClash
              ⟨[], db.jobs.nextId⟩ doc.jobs with
          | error e => rw [hjf] at h; exact Except.noConfusion h
          | ok js =>
            rw [hjf, except_ok_bind] at h
            have h' : Except.ok (DB.mk cs ps es js) = Except.ok db' := h
            have hdb : DB.mk cs ps es js = db' := by injection h'
            rw [← hdb] at hj
            rcases importStoreFold_sound Job.id Job.withNumId Job.delId noClash
              doc.jobs ⟨[], db.jobs.nextId⟩ js hjf j hj with h1 | ⟨item, hmem, hcase⟩
            · exact absurd h1 (List.not_mem_nil j)
            · rcases hcase with rfl | rfl | ⟨n, rfl⟩ | ⟨n, rfl⟩
              · exact hdoc _ hmem
              · unfold jobStatusValid
                rw [Job.delId_status]
                exact hdoc _ hmem
              · unfold jobStatusValid
                rw [Job.withNumId_status]
                exact hdoc _ hmem
              · unfold jobStatusValid
                rw [Job.withNumId_status, Job.delId_status]
                exact hdoc _ hmem

/-- Witness for C8 (amended): on `oneJobDB` (whose one job is valid),
importing a valid-status document yields a stored job whose status is
still in the enumerated set. -/
theorem job_status_invariant_witness :
    jobStatusValid { baseJob with id := JSVal.num 5 } = true :=
  (job_status_invariant oneJobDB (by decide)).2.2.2
    (ExportDoc.mk [] [] [] [{ baseJob with id := JSVal.num 5 }])
    (DB.mk (Store.mk [] 1) (Store.mk [] 1) (Store.mk [] 1)
      (Store.mk [{ baseJob with id := JSVal.num 5 }] 6))
    (by decide) (by rfl)
    { baseJob with id := JSVal.num 5 } (by decide)

/-- Counterexample to C8 as stated: `importDB` does not validate `status`,
so importing a job whose status is `"Nonsense"` produces a stored job
outside the eight enumerated values. -/
theorem job_status_invariant_cex :
    ∃ db', importDB oneJobDB (ExportDoc.mk [] [] []
        [{ baseJob with id := JSVal.num 9, status := JSVal.str "Nonsense" }]) =
        Except.ok db' ∧
      ∃ j ∈ db'.jobs.records, jobStatusValid j = false := by
  refine ⟨_, rfl,
    { baseJob with id := JSVal.num 9, status := JSVal.str "Nonsense" }, by decide, by decide⟩
